import Mathlib

/-!
Verification development for a single-node Redis-like key-value server
(Rust sources under src/). The definitions below are shallow embeddings of
the Rust code: byte buffers are lists of naturals (one per byte), machine
integers are `Int` with explicit range checks or wrapping, fallible code
returns `Except`/`Option`, and the handful of storage primitives that are
absent from src/storage.rs (list operations) are modelled from the
specification, each marked by a doc comment starting with
`Modelled from the spec:`.
-/

namespace RedisKV

/-! ## Rust integer parsing (str::parse::<iN>)

`str::parse` accepts an optional single leading plus or minus sign followed
by one or more ASCII digits, and fails when the resulting value does not
fit the target type. UTF-8 validation performed by `String::from_utf8`
before parsing is subsumed: the digit grammar only accepts ASCII bytes, so
any non-UTF-8 input fails the parse either way. -/

/-- Accumulates a big-endian run of ASCII digit bytes; `none` when the run
is empty or a byte is not an ASCII digit. -/
def digitsToNat (bytes : List Nat) : Option Nat :=
  match bytes with
  | [] => none
  | _ =>
    bytes.foldl
      (fun acc b =>
        match acc with
        | none => none
        | some n => if 48 ≤ b ∧ b ≤ 57 then some (n * 10 + (b - 48)) else none)
      (some 0)

/-- Rust integer parsing over raw bytes, parameterised by the target range:
optional sign, digits, range check. -/
def parseIntRust (lo hi : Int) (bytes : List Nat) : Option Int :=
  let signed : Option Int :=
    match bytes with
    | 43 :: rest => (digitsToNat rest).map (fun n => (n : Int))
    | 45 :: rest => (digitsToNat rest).map (fun n => -(n : Int))
    | _ => (digitsToNat bytes).map (fun n => (n : Int))
  match signed with
  | some z => if lo ≤ z ∧ z ≤ hi then some z else none
  | none => none

/-- Rust `str::parse::<i64>` on raw bytes. -/
def parseI64 (bytes : List Nat) : Option Int :=
  parseIntRust (-(2 ^ 63)) (2 ^ 63 - 1) bytes

/-- Rust `str::parse::<i32>` on raw bytes. -/
def parseI32 (bytes : List Nat) : Option Int :=
  parseIntRust (-(2 ^ 31)) (2 ^ 31 - 1) bytes

/-- Rust `str::parse::<i64>` on a Lean string (used by INCR). -/
def parseI64Str (s : String) : Option Int :=
  parseI64 (s.data.map Char.toNat)

/-- Two-sided complement wrap into the i64 range, the release-mode
semantics of Rust `i64` addition overflow. -/
def i64wrap (z : Int) : Int :=
  (z + 2 ^ 63) % 2 ^ 64 - 2 ^ 63

/-! ## RESP value decoding (src/types.rs)

`bytes::Bytes` is embedded as `List Nat`; each parsing function returns the
parse outcome together with the state of the buffer after the call, which
models the `&mut Bytes` argument: `Bytes` cursor movement is destructive,
so bytes examined before an error are gone from the caller-visible cursor. -/

/-- The `Value` enum of src/types.rs. The payload of `Double` is kept as
the raw accepted text of the `f64` literal, since no claim depends on the
numeric value of a decoded double. -/
inductive Value where
  | simpleString (data : List Nat)
  | bulkString (data : List Nat)
  | array (elements : List Value)
  | integer (n : Int)
  | double (raw : List Nat)

/-- The `read_until_crlf` loop of src/types.rs: consumes bytes while at
least two remain, returning the bytes before the first CRLF and the buffer
after it; on failure the examined bytes have been consumed and the final
sub-2-byte tail is left in place. -/
def readUntilCrlf (acc : List Nat) : List Nat →
    Except String (List Nat) × List Nat
  | b :: c :: rest =>
    if b = 13 ∧ c = 10 then (Except.ok acc.reverse, rest)
    else readUntilCrlf (b :: acc) (c :: rest)
  | rest => (Except.error ("CRLF not found"), rest)

/-- `parse_simple_string` of src/types.rs. -/
def parseSimpleString (buf : List Nat) : Except String Value × List Nat :=
  match readUntilCrlf [] buf with
  | (Except.ok line, r) => (Except.ok (Value.simpleString line), r)
  | (Except.error e, r) => (Except.error e, r)

/-- `parse_integer` of src/types.rs: reads a line, strips an explicit sign
byte if present, parses the remainder as i64 and re-applies the sign. -/
def parseInteger (buf : List Nat) : Except String Value × List Nat :=
  match readUntilCrlf [] buf with
  | (Except.error e, r) => (Except.error e, r)
  | (Except.ok line, r) =>
    match (match line with
           | 43 :: rest => parseI64 rest
           | 45 :: rest => (parseI64 rest).map (fun z => z * (-1))
           | _ => parseI64 line : Option Int) with
    | some n => (Except.ok (Value.integer n), r)
    | none => (Except.error ("invalid integer"), r)

/-- Approximation of the Rust `f64::from_str` grammar: optional sign, then
`inf`, `infinity`, `nan` (case-insensitive) or a decimal literal with
optional fraction and exponent. Only acceptance matters here; the payload
of a decoded double stays textual. -/
def isF64Digits (l : List Nat) : Bool :=
  l.all (fun b => 48 ≤ b ∧ b ≤ 57)

/-- Lower-cases an ASCII byte. -/
def asciiLower (b : Nat) : Nat :=
  if 65 ≤ b ∧ b ≤ 90 then b + 32 else b

/-- Exponent part of the float grammar: `[eE][+-]?digits` or empty. -/
def isF64Exp (l : List Nat) : Bool :=
  match l with
  | [] => true
  | e :: rest =>
    (asciiLower e = 101) &&
      (match rest with
       | 43 :: ds => ds ≠ [] && isF64Digits ds
       | 45 :: ds => ds ≠ [] && isF64Digits ds
       | ds => ds ≠ [] && isF64Digits ds)

/-- Mantissa-and-exponent part of the float grammar. -/
def isF64Mantissa (l : List Nat) : Bool :=
  match l.splitOnP (fun b => b = 46) with
  | [intPart, fracPart] =>
    (intPart ≠ [] || fracPart ≠ []) &&
      isF64Digits intPart &&
      (match fracPart.span (fun b => 48 ≤ b ∧ b ≤ 57) with
       | (ds, ex) => (fracPart = [] || ds ≠ [] || intPart ≠ []) && isF64Exp ex && isF64Digits ds)
  | [whole] =>
    match whole.span (fun b => 48 ≤ b ∧ b ≤ 57) with
    | (ds, ex) => ds ≠ [] && isF64Exp ex
  | _ => false

/-- Full `f64::from_str` acceptance test. -/
def isF64Text (l : List Nat) : Bool :=
  let body :=
    match l with
    | 43 :: rest => rest
    | 45 :: rest => rest
    | rest => rest
  let lower := body.map asciiLower
  lower = [105, 110, 102] || lower = [105, 110, 102, 105, 110, 105, 116, 121] ||
    lower = [110, 97, 110] || isF64Mantissa body

/-- `parse_double` of src/types.rs. -/
def parseDouble (buf : List Nat) : Except String Value × List Nat :=
  match readUntilCrlf [] buf with
  | (Except.error e, r) => (Except.error e, r)
  | (Except.ok line, r) =>
    if isF64Text line then (Except.ok (Value.double line), r)
    else (Except.error ("invalid double"), r)

/-- Tail of `parse_bulk_string` of src/types.rs, after the length line has
been read and parsed: `-1` yields `BulkString(vec![])`, any other negative
length (or insufficient data) is an error, otherwise the declared number of
bytes is taken and the trailing CRLF consumed and checked. -/
def parseBulkStringWithLen (length : Int) (buf : List Nat) :
    Except String Value × List Nat :=
  if length = -1 then (Except.ok (Value.bulkString []), buf)
  else if length < 0 ∨ (buf.length : Int) < length + 2 then
    (Except.error ("Invalid bulk string length or insufficient data"), buf)
  else
    let data := buf.take length.toNat
    let rest := buf.drop length.toNat
    match rest with
    | a :: b :: rest2 =>
      if a = 13 ∧ b = 10 then (Except.ok (Value.bulkString data), rest2)
      else (Except.error ("Expected CRLF after bulk string"), rest2)
    | other => (Except.error ("Expected CRLF after bulk string"), other)

/-- Head of `parse_bulk_string` of src/types.rs: length line. -/
def parseBulkString (buf : List Nat) : Except String Value × List Nat :=
  match readUntilCrlf [] buf with
  | (Except.error e, r) => (Except.error e, r)
  | (Except.ok lengthStr, r) =>
    match parseI32 lengthStr with
    | none => (Except.error ("invalid bulk string length"), r)
    | some length => parseBulkStringWithLen length r

mutual

/-- `parse_value` of src/types.rs, with a fuel parameter standing in for
the recursion through `parse_array`; `fuel = buffer length + 2` is always
sufficient since every recursive step consumes at least one byte. The
array branch factors the source `parse_array` into the length-line header
(inlined here) and `parseArrayWithCount` below. -/
def parseValue : Nat → List Nat → Except String Value × List Nat
  | 0, buf => (Except.error ("out of fuel"), buf)
  | fuel + 1, buf =>
    match buf with
    | [] => (Except.error ("Buffer is empty, nothing to parse"), [])
    | b :: rest =>
      if b = 43 then parseSimpleString rest
      else if b = 36 then parseBulkString rest
      else if b = 42 then
        match readUntilCrlf [] rest with
        | (Except.error e, r) => (Except.error e, r)
        | (Except.ok countStr, r) =>
          match parseI32 countStr with
          | none => (Except.error ("invalid array count"), r)
          | some count => parseArrayWithCount fuel count r
      else if b = 58 then parseInteger rest
      else if b = 44 then parseDouble rest
      else (Except.error ("Unsupported data type"), rest)

/-- Tail of `parse_array` of src/types.rs, after the count line has been
parsed: every negative count (including -1) is rejected, otherwise `count`
elements are parsed in sequence. -/
def parseArrayWithCount : Nat → Int → List Nat → Except String Value × List Nat
  | 0, _, buf => (Except.error ("out of fuel"), buf)
  | fuel + 1, count, buf =>
    if count < 0 then (Except.error ("Negative array count not supported"), buf)
    else
      match parseMany fuel count.toNat buf with
      | (Except.ok elems, r) => (Except.ok (Value.array elems), r)
      | (Except.error e, r) => (Except.error e, r)

/-- The element loop of `parse_array`. -/
def parseMany : Nat → Nat → List Nat → Except String (List Value) × List Nat
  | _, 0, buf => (Except.ok [], buf)
  | 0, _ + 1, buf => (Except.error ("out of fuel"), buf)
  | fuel + 1, n + 1, buf =>
    match parseValue fuel buf with
    | (Except.error e, r) => (Except.error e, r)
    | (Except.ok v, r) =>
      match parseMany fuel n r with
      | (Except.ok vs, r2) => (Except.ok (v :: vs), r2)
      | (Except.error e, r2) => (Except.error e, r2)

end

/-- Entry point with sufficient fuel for any buffer. -/
def parseValueTop (buf : List Nat) : Except String Value × List Nat :=
  parseValue (buf.length + 2) buf

/-! ## Floating-point scores

Scores are `f64` in the source. They are modelled by `F64`: finite values
carry an unbounded integer (the fragment of float behaviour the sorted-set
code depends on is equality and the total order on non-NaN values; the one
further subtlety, `+0.0 == -0.0`, disappears when finite values are
integers), and NaN and the infinities are explicit constructors so that
the `is_finite` guard and the `partial_cmp` `None` branch of the source
remain faithful. -/

inductive F64 where
  | num (v : Int)
  | nan
  | posInf
  | negInf
deriving DecidableEq

/-- Rust `f64::is_finite`. -/
def F64.isFinite : F64 → Bool
  | .num _ => true
  | _ => false

/-- Rust `==` on f64: NaN compares unequal to everything, itself included. -/
def F64.beq : F64 → F64 → Bool
  | .num v, .num w => v = w
  | .posInf, .posInf => true
  | .negInf, .negInf => true
  | _, _ => false

/-- Rust `partial_cmp` on f64: `none` whenever NaN is involved. -/
def F64.partialCmp : F64 → F64 → Option Ordering
  | .nan, _ => none
  | _, .nan => none
  | .num v, .num w => some (compare v w)
  | .num _, .posInf => some Ordering.lt
  | .num _, .negInf => some Ordering.gt
  | .posInf, .posInf => some Ordering.eq
  | .posInf, _ => some Ordering.gt
  | .negInf, .negInf => some Ordering.eq
  | .negInf, _ => some Ordering.lt

/-- Rust `f64` Display, as used by `to_string` on scores; only the finite
integral shapes that `F64` carries are rendered. -/
def F64.toStr : F64 → String
  | .num v => toString v
  | .nan => "NaN"
  | .posInf => "inf"
  | .negInf => "-inf"

/-- Rust `> 0.0` (false for NaN). -/
def F64.isGtZero : F64 → Bool
  | .num v => 0 < v
  | .posInf => true
  | _ => false

/-! ## Byte-lexicographic string comparison

Rust `String` ordering compares UTF-8 bytes lexicographically; comparing
scalar-value sequences gives the same order because UTF-8 is
order-preserving. `lexCmp` is the comparator on code-point lists and
`strCmp` its lift to `String`. -/

/-- Lexicographic three-way comparison of code-point lists. -/
def lexCmp : List Nat → List Nat → Ordering
  | [], [] => Ordering.eq
  | [], _ :: _ => Ordering.lt
  | _ :: _, [] => Ordering.gt
  | x :: xs, y :: ys =>
    if x < y then Ordering.lt
    else if y < x then Ordering.gt
    else lexCmp xs ys

/-- Code points of a string. -/
def strBytes (s : String) : List Nat :=
  s.data.map Char.toNat

/-- Rust `Ord` on `String`. -/
def strCmp (a b : String) : Ordering :=
  lexCmp (strBytes a) (strBytes b)

/-! ## Sorted sets (src/storage.rs)

`SortedSet` holds a `HashMap<String, f64>` (embedded as an association
list with insert-replaces-value semantics) and a `BTreeSet<ScoredMember>`
(embedded as a list kept strictly sorted under `ScoredMember.cmp`, with
`BTreeSet::insert` / `BTreeSet::remove` semantics on that order). -/

/-- The `ScoredMember` struct of src/storage.rs. -/
structure ScoredMember where
  score : F64
  member : String
deriving DecidableEq

/-- The `Ord` impl for `ScoredMember`: score order first, member bytes as
tie-break both when the scores compare equal and when they are
incomparable (NaN). -/
def ScoredMember.cmp (a b : ScoredMember) : Ordering :=
  match a.score.partialCmp b.score with
  | some Ordering.eq => strCmp a.member b.member
  | none => strCmp a.member b.member
  | some o => o

/-- The `PartialEq` impl for `ScoredMember` (bitwise score equality); it is
not consulted by the `BTreeSet` operations, which use `cmp`. -/
def ScoredMember.beqBits (a b : ScoredMember) : Bool :=
  a.score = b.score ∧ a.member = b.member

/-- `BTreeSet::insert` on a sorted list: the element is placed at its
position unless an `Ord`-equal element is already present, in which case
the set is unchanged. -/
def btInsert (x : ScoredMember) : List ScoredMember → List ScoredMember
  | [] => [x]
  | y :: ys =>
    match ScoredMember.cmp x y with
    | Ordering.lt => x :: y :: ys
    | Ordering.eq => y :: ys
    | Ordering.gt => y :: btInsert x ys

/-- `BTreeSet::remove` on a sorted list: drops the `Ord`-equal element if
present. -/
def btRemove (x : ScoredMember) : List ScoredMember → List ScoredMember
  | [] => []
  | y :: ys =>
    match ScoredMember.cmp x y with
    | Ordering.lt => y :: ys
    | Ordering.eq => ys
    | Ordering.gt => y :: btRemove x ys

/-- Association-list lookup (HashMap::get). -/
def hmLookup (k : String) : List (String × F64) → Option F64
  | [] => none
  | (k', v) :: t => if k' = k then some v else hmLookup k t

/-- Association-list insert (HashMap::insert: replaces the value if the
key is present, otherwise adds the binding). -/
def hmInsert (k : String) (v : F64) : List (String × F64) → List (String × F64)
  | [] => [(k, v)]
  | (k', v') :: t => if k' = k then (k, v) :: t else (k', v') :: hmInsert k v t

/-- Association-list remove (HashMap::remove). -/
def hmRemove (k : String) : List (String × F64) → List (String × F64)
  | [] => []
  | (k', v') :: t => if k' = k then t else (k', v') :: hmRemove k t

/-- The `SortedSet` struct of src/storage.rs. -/
structure SortedSetM where
  by_member : List (String × F64)
  ordered : List ScoredMember
deriving DecidableEq

/-- `SortedSet::new`. -/
def SortedSetM.new : SortedSetM :=
  { by_member := [], ordered := [] }

/-- `SortedSet::zadd` of src/storage.rs: non-finite scores are a no-op
returning 0; an existing member with `==`-equal score is a no-op returning
0; an existing member with a different score is moved in both indexes and
returns 0; a new member is inserted in both indexes and returns 1. -/
def SortedSetM.zadd (s : SortedSetM) (score : F64) (member : String) :
    Nat × SortedSetM :=
  if ¬ score.isFinite then (0, s)
  else
    match hmLookup member s.by_member with
    | some oldScore =>
      if oldScore.beq score then (0, s)
      else
        let old : ScoredMember := { score := oldScore, member := member }
        let ordered1 := btRemove old s.ordered
        let byMember1 := hmInsert member score s.by_member
        let ordered2 := btInsert { score := score, member := member } ordered1
        (0, { by_member := byMember1, ordered := ordered2 })
    | none =>
      (1, { by_member := hmInsert member score s.by_member,
            ordered := btInsert { score := score, member := member } s.ordered })

/-- `SortedSet::zrank` of src/storage.rs: linear scan of the ordered index
for the first entry with the requested member. -/
def SortedSetM.zrank (s : SortedSetM) (member : String) : Option Nat :=
  if (hmLookup member s.by_member).isSome then
    (s.ordered.enum.find? (fun p => p.2.member = member)).map (fun p => p.1)
  else none

/-- `SortedSet::zrange` of src/storage.rs: negative indices are shifted by
the cardinality, the range is rejected early when the converted start is
past the end of the set or beyond the converted end, and otherwise the
ordered index is filtered by position between `max start 0` and
`min end size`. -/
def SortedSetM.zrange (s : SortedSetM) (start : Int) (stop : Int) :
    Option (List String) :=
  let membersSize : Int := s.by_member.length
  let start' := if start < 0 then membersSize + start else start
  let stop' := if stop < 0 then membersSize + stop else stop
  if start' ≥ membersSize ∨ start' > stop' then none
  else
    let first := max start' 0
    let last := min stop' membersSize
    some
      ((s.ordered.enum.filter
          (fun p => first ≤ (p.1 : Int) ∧ (p.1 : Int) ≤ last)).map
        (fun p => p.2.member))

/-- `SortedSet::zcard` of src/storage.rs. -/
def SortedSetM.zcard (s : SortedSetM) : Nat :=
  s.by_member.length

/-- Modelled from the spec: `SortedSet::zrem` is called by the command
layer (`storage.zrem`) but is absent from src/storage.rs. Per the spec it
removes one member from both indexes and reports whether it was present. -/
def SortedSetM.zrem (s : SortedSetM) (member : String) : Nat × SortedSetM :=
  match hmLookup member s.by_member with
  | none => (0, s)
  | some score =>
    (1, { by_member := hmRemove member s.by_member,
          ordered := btRemove { score := score, member := member } s.ordered })

/-! ## Commands and results (src/redis_command.rs) -/

/-- The `RedisCommand` enum. -/
inductive Cmd where
  | ping
  | echo (message : String)
  | set (key value : String)
  | setWithExpiry (key value : String) (expiryMs : Nat)
  | get (key : String)
  | incr (key : String)
  | multi
  | exec
  | discard
  | configGet (argument : String)
  | keys (pattern : String)
  | zadd (key : String) (score : F64) (member : String)
  | zrank (key member : String)
  | zrange (key : String) (start stop : Int)
  | zcard (key : String)
  | zscore (key member : String)
  | zrem (key member : String)
  | subscribe (channel : String)
  | unsubscribe (channel : String)
  | publish (channel message : String)
  | rpush (list : String) (elements : List String)
  | lrange (key : String) (start stop : Int)
  | lpush (list : String) (elements : List String)
  | llen (key : String)
  | lpop (key : String) (count : Option Nat)
  | blpop (key : String) (timeout : F64)
  | geoadd (key : String) (longitude latitude : F64) (member : String)
  | geopos (key : String) (positions : List String)
  | geodist (key from_ to_ : String)
  | geosearch (key : String) (longitude latitude radius : F64)
  | typeOf (key : String)
deriving DecidableEq

/-- The `Display` impl for `RedisCommand`. -/
def Cmd.name : Cmd → String
  | .ping => "PING"
  | .echo _ => "ECHO"
  | .set _ _ => "SET"
  | .setWithExpiry _ _ _ => "SET"
  | .get _ => "GET"
  | .incr _ => "INCR"
  | .multi => "MULTI"
  | .exec => "EXEC"
  | .discard => "DISCARD"
  | .configGet _ => "CONFIG GET"
  | .keys _ => "KEYS"
  | .zadd _ _ _ => "ZADD"
  | .zrank _ _ => "ZRANK"
  | .zrange _ _ _ => "ZRANGE"
  | .zcard _ => "ZCARD"
  | .zscore _ _ => "ZSCORE"
  | .zrem _ _ => "ZREM"
  | .subscribe _ => "SUBSCRIBE"
  | .unsubscribe _ => "UNSUBSCRIBE"
  | .publish _ _ => "PUBLISH"
  | .rpush _ _ => "RPUSH"
  | .lrange _ _ _ => "LRANGE"
  | .lpush _ _ => "LPUSH"
  | .llen _ => "LLEN"
  | .lpop _ _ => "LPOP"
  | .blpop _ _ => "BLPOP"
  | .geoadd _ _ _ _ => "GEOADD"
  | .geopos _ _ => "GEOPOS"
  | .geodist _ _ _ => "GEODIST"
  | .geosearch _ _ _ _ => "GEOSEARCH"
  | .typeOf _ => "TYPE"

/-- The `CommandResult` enum. -/
inductive CommandResult where
  | pong
  | echo (message : String)
  | ok
  | queued
  | simpleStr (s : String)
  | value (v : Option String)
  | integer (n : Int)
  | array (elements : List CommandResult)
  | nullArray
  | redisError (message : String)
  | configValue (name value : String)
  | blocked

/-- `is_command_allowed_in_subscribe_mode` of src/pubsub.rs. -/
def allowedInSubscribeMode : Cmd → Bool
  | .subscribe _ => true
  | .ping => true
  | .unsubscribe _ => true
  | _ => false

/-! ## String-keyed stores (src/storage.rs and modelled list storage)

Generic association-list helpers with HashMap semantics, reused for the
string keyspace, the sorted-set map, the list map, the pub/sub hub and the
waiter registry. -/

/-- HashMap::get. -/
def alookup {α : Type} (k : String) : List (String × α) → Option α
  | [] => none
  | (k', v) :: t => if k' = k then some v else alookup k t

/-- HashMap::insert (replace value when the key is present). -/
def ainsert {α : Type} (k : String) (v : α) :
    List (String × α) → List (String × α)
  | [] => [(k, v)]
  | (k', v') :: t => if k' = k then (k, v) :: t else (k', v') :: ainsert k v t

/-- HashMap::remove. -/
def aremove {α : Type} (k : String) : List (String × α) → List (String × α)
  | [] => []
  | (k', v') :: t => if k' = k then t else (k', v') :: aremove k t

/-- The `StoredValue` struct of src/storage.rs; `Instant` is a
millisecond tick. -/
structure StoredValue where
  value : String
  expiresAt : Option Nat
deriving DecidableEq

/-- `StoredValue::is_expired` at instant `now`. -/
def StoredValue.isExpired (sv : StoredValue) (now : Nat) : Bool :=
  match sv.expiresAt with
  | some e => e < now
  | none => false

/-- `Storage::get` of src/storage.rs: lazily evicts an expired entry and
returns `None` for it; returns the updated map alongside the result. -/
def storageGet (now : Nat) (key : String) (data : List (String × StoredValue)) :
    Option String × List (String × StoredValue) :=
  match alookup key data with
  | some sv =>
    if sv.isExpired now then (none, aremove key data)
    else (some sv.value, data)
  | none => (none, data)

/-- `Storage::set` of src/storage.rs. -/
def storageSet (key value : String) (data : List (String × StoredValue)) :
    List (String × StoredValue) :=
  ainsert key { value := value, expiresAt := none } data

/-- `Storage::set_with_expiry` of src/storage.rs. -/
def storageSetWithExpiry (now : Nat) (key value : String) (expiryMs : Nat)
    (data : List (String × StoredValue)) : List (String × StoredValue) :=
  ainsert key { value := value, expiresAt := some (now + expiryMs) } data

/-- `Storage::get_all` of src/storage.rs: sweeps expired keys, returns the
live ones, `None` when none are live. -/
def storageGetAll (now : Nat) (data : List (String × StoredValue)) :
    Option (List String) × List (String × StoredValue) :=
  let valid := (data.filter (fun kv => ¬ kv.2.isExpired now)).map (fun kv => kv.1)
  let swept := data.filter (fun kv => ¬ kv.2.isExpired now)
  if valid.isEmpty then (none, swept) else (some valid, swept)

/-- Modelled from the spec: `Storage::rpush` is called by the command
layer but absent from src/storage.rs. Appends the elements to the (possibly
new) list and returns the new length together with whether the list was
empty beforehand. -/
def listRpush (key : String) (elements : List String)
    (lists : List (String × List String)) :
    Nat × Bool × List (String × List String) :=
  let old := (alookup key lists).getD []
  let newList := old ++ elements
  (newList.length, old.isEmpty, ainsert key newList lists)

/-- Modelled from the spec: `Storage::lpush`, absent from src/storage.rs.
Each element is prepended in turn (Redis order: the last argument ends up
first); returns the new length. -/
def listLpush (key : String) (elements : List String)
    (lists : List (String × List String)) :
    Nat × List (String × List String) :=
  let old := (alookup key lists).getD []
  let newList := elements.reverse ++ old
  (newList.length, ainsert key newList lists)

/-- Modelled from the spec: `Storage::lpop`, absent from src/storage.rs.
An absent or empty list yields `none`; without a count one element is
removed from the front, with a count up to `count` elements are; the key is
deleted when the list becomes empty. -/
def listLpop (key : String) (count : Option Nat)
    (lists : List (String × List String)) :
    Option (List String) × List (String × List String) :=
  match alookup key lists with
  | none => (none, lists)
  | some [] => (none, lists)
  | some (x :: xs) =>
    let n := match count with | none => 1 | some c => c
    let taken := (x :: xs).take n
    let rest := (x :: xs).drop n
    if n = 0 then (some [], lists)
    else if rest.isEmpty then (some taken, aremove key lists)
    else (some taken, ainsert key rest lists)

/-- Modelled from the spec: `Storage::llen`, absent from src/storage.rs. -/
def listLlen (key : String) (lists : List (String × List String)) : Option Nat :=
  (alookup key lists).map (fun l => l.length)

/-- Modelled from the spec: `Storage::lrange`, absent from src/storage.rs;
the spec gives it the same index semantics as `ZRANGE`. -/
def listLrange (key : String) (start stop : Int)
    (lists : List (String × List String)) : Option (List String) :=
  match alookup key lists with
  | none => none
  | some l =>
    let len : Int := l.length
    let start' := if start < 0 then len + start else start
    let stop' := if stop < 0 then len + stop else stop
    if start' ≥ len ∨ start' > stop' then none
    else
      some
        ((l.enum.filter
            (fun p => start' ≤ (p.1 : Int) ∧ (p.1 : Int) ≤ min stop' (len - 1))).map
          (fun p => p.2))

/-! ## The command processor (src/command_processor.rs)

`CommandProcessor` state, the pub/sub hub and the blocking-list registry
are flattened into one record. Mailbox sends are modelled as append-only
event lists (`delivered` for blocked-pop handoffs, `published` for pub/sub
fan-out). -/

/-- Combined state of `CommandProcessor`, `PubSubManager`,
`PubSubClient` and `BlockingListManager` for one connection. -/
structure ProcState where
  data : List (String × StoredValue)
  sortedSets : List (String × SortedSetM)
  lists : List (String × List String)
  txActive : Bool
  txQueue : List Cmd
  psActive : Bool
  psChannels : List String
  clientId : Nat
  hubChannels : List (String × List Nat)
  waiters : List (String × List (Nat × Option F64))
  delivered : List (Nat × String × String)
  published : List (Nat × String × String)
  configDir : Option String
  configDbfilename : Option String

/-- An empty processor state (fresh connection, empty keyspace). -/
def baseState : ProcState :=
  { data := [], sortedSets := [], lists := [], txActive := false,
    txQueue := [], psActive := false, psChannels := [], clientId := 0,
    hubChannels := [], waiters := [], delivered := [], published := [],
    configDir := none, configDbfilename := none }

/-- `Storage::get_config`. -/
def getConfig (st : ProcState) (key : String) : Option String :=
  if key = "dir" then st.configDir
  else if key = "dbfilename" then st.configDbfilename
  else none

/-- `BlockingListManager::has_waiting_clients`. -/
def hasWaiting (key : String)
    (ws : List (String × List (Nat × Option F64))) : Bool :=
  match alookup key ws with
  | some q => ¬ q.isEmpty
  | none => false

/-- `BlockingListManager::notify_next_waiting_client`: pops the oldest
waiter for the key, records the mailbox send in `delivered`, and drops the
key when its queue empties. -/
def notifyNext (key : String) (element : String) (st : ProcState) : ProcState :=
  match alookup key st.waiters with
  | some ((cid, _) :: rest) =>
    { st with
      waiters := if rest.isEmpty then aremove key st.waiters
                 else ainsert key rest st.waiters,
      delivered := st.delivered ++ [(cid, key, element)] }
  | _ => st

/-- `BlockingListManager::register_waiting_client`. -/
def registerWaiting (key : String) (cid : Nat) (timeout : F64)
    (ws : List (String × List (Nat × Option F64))) :
    List (String × List (Nat × Option F64)) :=
  let q := (alookup key ws).getD []
  let timeoutDuration := if timeout.isGtZero then some timeout else none
  ainsert key (q ++ [(cid, timeoutDuration)]) ws

/-- `CommandProcessor::execute_primitive` of src/command_processor.rs at
instant `now`. Returns `none` exactly for the commands whose
implementation is not part of the embedded core: the four geospatial
commands (their `crate::geospatial` module is absent from src/) and
`Type` (which has no arm in the source match). -/
def executePrimitive (now : Nat) (st : ProcState) :
    Cmd → Option (CommandResult × ProcState)
  | .ping => some (.pong, st)
  | .echo message => some (.echo message, st)
  | .set key value => some (.ok, { st with data := storageSet key value st.data })
  | .setWithExpiry key value ms =>
    some (.ok, { st with data := storageSetWithExpiry now key value ms st.data })
  | .get key =>
    let r := storageGet now key st.data
    some (.value r.1, { st with data := r.2 })
  | .incr key =>
    let r := storageGet now key st.data
    let st1 := { st with data := r.2 }
    match r.1 with
    | none =>
      some (.integer 1, { st1 with data := storageSet key (toString (1 : Int)) st1.data })
    | some valueStr =>
      match parseI64Str valueStr with
      | none => some (.redisError ("value is not an integer or out of range"), st1)
      | some v =>
        let newValue := i64wrap (v + 1)
        some (.integer newValue,
          { st1 with data := storageSet key (toString newValue) st1.data })
  | .multi => some (.redisError ("Internal command routing error"), st)
  | .exec => some (.redisError ("Internal command routing error"), st)
  | .discard => some (.redisError ("Internal command routing error"), st)
  | .configGet argument =>
    if argument = "dir" ∨ argument = "dbfilename" then
      match getConfig st argument with
      | some v => some (.configValue argument v, st)
      | none => some (.configValue argument "", st)
    else
      some (.redisError ("CONFIG GET does not support this argument: " ++ argument), st)
  | .keys pattern =>
    if pattern = "*" then
      let r := storageGetAll now st.data
      let st1 := { st with data := r.2 }
      match r.1 with
      | some ks => some (.array (ks.map (fun k => CommandResult.value (some k))), st1)
      | none => some (.value none, st1)
    else some (.redisError ("Pattern " ++ pattern ++ " is not supported"), st)
  | .zadd key score member =>
    let set0 := (alookup key st.sortedSets).getD SortedSetM.new
    let r := set0.zadd score member
    some (.integer r.1, { st with sortedSets := ainsert key r.2 st.sortedSets })
  | .zrank key member =>
    match (alookup key st.sortedSets).bind (fun s => s.zrank member) with
    | some rank => some (.integer rank, st)
    | none => some (.value none, st)
  | .zrange key start stop =>
    match (alookup key st.sortedSets).bind (fun s => s.zrange start stop) with
    | some members =>
      some (.array (members.map (fun m => CommandResult.value (some m))), st)
    | none => some (.array [], st)
  | .zcard key =>
    match alookup key st.sortedSets with
    | some s => some (.integer s.zcard, st)
    | none => some (.integer 0, st)
  | .zscore key member =>
    match (alookup key st.sortedSets).bind (fun s => hmLookup member s.by_member) with
    | some score => some (.value (some score.toStr), st)
    | none => some (.value none, st)
  | .zrem key member =>
    match alookup key st.sortedSets with
    | some s =>
      let r := s.zrem member
      let sets1 := if r.2.zcard = 0 then aremove key st.sortedSets
                   else ainsert key r.2 st.sortedSets
      some (.integer r.1, { st with sortedSets := sets1 })
    | none => some (.integer 0, st)
  | .subscribe channel =>
    if st.psChannels.contains channel then
      some (.redisError ("Failed to subscribe to the channel"), st)
    else
      let psChannels1 := channel :: st.psChannels
      let hubSet := ((alookup channel st.hubChannels).getD [])
      let hubSet1 := if hubSet.contains st.clientId then hubSet
                     else hubSet ++ [st.clientId]
      let st1 :=
        { st with psChannels := psChannels1, psActive := true,
                  hubChannels := ainsert channel hubSet1 st.hubChannels }
      some (.array [CommandResult.value (some "subscribe"),
                    CommandResult.value (some channel),
                    CommandResult.integer psChannels1.length], st1)
  | .unsubscribe channel =>
    let psChannels1 := st.psChannels.erase channel
    let hubSet1 := ((alookup channel st.hubChannels).getD []).filter
      (fun cid => cid ≠ st.clientId)
    let hub1 :=
      match alookup channel st.hubChannels with
      | none => st.hubChannels
      | some _ =>
        if hubSet1.isEmpty then aremove channel st.hubChannels
        else ainsert channel hubSet1 st.hubChannels
    let count := psChannels1.length
    let st1 :=
      { st with psChannels := psChannels1, hubChannels := hub1,
                psActive := if count = 0 then false else st.psActive }
    some (.array [CommandResult.value (some "unsubscribe"),
                  CommandResult.value (some channel),
                  CommandResult.integer count], st1)
  | .publish channel message =>
    let subs := (alookup channel st.hubChannels).getD []
    some (.integer subs.length,
      { st with published := st.published ++ subs.map (fun cid => (cid, channel, message)) })
  | .rpush list elements =>
    let r := listRpush list elements st.lists
    let st1 := { st with lists := r.2.2 }
    if r.2.1 ∧ hasWaiting list st1.waiters then
      match listLpop list (some 1) st1.lists with
      | (some popped, lists2) =>
        let st2 := notifyNext list (popped.headD "") { st1 with lists := lists2 }
        some (.integer r.1, st2)
      | (none, lists2) => some (.integer r.1, { st1 with lists := lists2 })
    else some (.integer r.1, st1)
  | .lrange key start stop =>
    match listLrange key start stop st.lists with
    | some members =>
      some (.array (members.map (fun m => CommandResult.value (some m))), st)
    | none => some (.array [], st)
  | .lpush list elements =>
    let r := listLpush list elements st.lists
    some (.integer r.1, { st with lists := r.2 })
  | .llen key =>
    match listLlen key st.lists with
    | some n => some (.integer n, st)
    | none => some (.integer 0, st)
  | .lpop key count =>
    let r := listLpop key count st.lists
    let st1 := { st with lists := r.2 }
    match r.1 with
    | none => some (.value none, st1)
    | some [x] => some (.value (some x), st1)
    | some l => some (.array (l.map (fun el => CommandResult.value (some el))), st1)
  | .blpop key timeout =>
    match listLpop key (some 1) st.lists with
    | (some popped, lists1) =>
      some (.array [CommandResult.value (some key),
                    CommandResult.value (some (popped.headD ""))],
        { st with lists := lists1 })
    | (none, lists1) =>
      let st1 := { st with lists := lists1 }
      some (.blocked,
        { st1 with waiters := registerWaiting key st1.clientId timeout st1.waiters })
  | .geoadd _ _ _ _ => none
  | .geopos _ _ => none
  | .geodist _ _ _ => none
  | .geosearch _ _ _ _ => none
  | .typeOf _ => none

/-- Sequential execution of a queued transaction (the `EXEC` loop). -/
def executeQueued (now : Nat) (st : ProcState) :
    List Cmd → Option (List CommandResult × ProcState)
  | [] => some ([], st)
  | c :: cs =>
    match executePrimitive now st c with
    | none => none
    | some (r, st1) =>
      match executeQueued now st1 cs with
      | none => none
      | some (rs, st2) => some (r :: rs, st2)

/-- `CommandProcessor::execute` of src/command_processor.rs: the
transaction commands are matched first; any other command is queued when a
transaction is active, then gated by subscribe mode, then dispatched to
`execute_primitive`. -/
def execute (now : Nat) (st : ProcState) (command : Cmd) :
    Option (CommandResult × ProcState) :=
  match command with
  | .multi => some (.ok, { st with txActive := true, txQueue := [] })
  | .exec =>
    if ¬ st.txActive then some (.redisError ("EXEC without MULTI"), st)
    else
      let st1 := { st with txActive := false, txQueue := [] }
      if st.txQueue.isEmpty then some (.array [], st1)
      else
        match executeQueued now st1 st.txQueue with
        | none => none
        | some (rs, st2) => some (.array rs, st2)
  | .discard =>
    if ¬ st.txActive then some (.redisError ("DISCARD without MULTI"), st)
    else some (.ok, { st with txActive := false, txQueue := [] })
  | other =>
    if st.txActive then
      some (.queued, { st with txQueue := st.txQueue ++ [other] })
    else if st.psActive then
      if other = .ping then
        some (.array [CommandResult.value (some "pong"),
                      CommandResult.value (some "")], st)
      else if ¬ allowedInSubscribeMode other then
        some (.redisError ("Can\x27t execute \x27" ++ other.name ++ "\x27"), st)
      else executePrimitive now st other
    else executePrimitive now st other

/-! ## Snapshot loading (src/storage.rs, read_database_file and helpers)

The `bytes::Bytes` cursor operations used by the loader panic when fewer
bytes remain than requested (`get_u8`, `get_u16_le`, `get_u32`,
`get_u32_le`, `get_u64`, `get_u64_le`, `advance`, `copy_to_bytes`), so the
embedding distinguishes three outcomes: a value with the rest of the
buffer, an `anyhow` error with the rest of the buffer, or a crash
(the Rust panic). -/

/-- Outcome of a fallible, possibly panicking buffer operation. -/
inductive BufResult (α : Type) where
  | ok (a : α) (rest : List Nat)
  | err (msg : String) (rest : List Nat)
  | crash

/-- `Bytes::get_u8`: panics on an empty buffer. -/
def getU8 : List Nat → BufResult Nat
  | [] => .crash
  | b :: r => .ok b r

/-- `Bytes::advance`: panics when the buffer is shorter than the count. -/
def advanceBy (n : Nat) (l : List Nat) : BufResult Unit :=
  if n ≤ l.length then .ok () (l.drop n) else .crash

/-- `Buf::copy_to_bytes`: panics when the buffer is shorter than the
requested length. -/
def copyToBytes (n : Nat) (l : List Nat) : BufResult (List Nat) :=
  if n ≤ l.length then .ok (l.take n) (l.drop n) else .crash

/-- `Bytes::get_u16_le`. -/
def getU16le : List Nat → BufResult Nat
  | b0 :: b1 :: r => .ok (b0 + 256 * b1) r
  | _ => .crash

/-- `Bytes::get_u32` (big-endian). -/
def getU32be : List Nat → BufResult Nat
  | b0 :: b1 :: b2 :: b3 :: r => .ok (((b0 * 256 + b1) * 256 + b2) * 256 + b3) r
  | _ => .crash

/-- `Bytes::get_u32_le`. -/
def getU32le : List Nat → BufResult Nat
  | b0 :: b1 :: b2 :: b3 :: r => .ok (b0 + 256 * (b1 + 256 * (b2 + 256 * b3))) r
  | _ => .crash

/-- `Bytes::get_u64_le`. -/
def getU64le : List Nat → BufResult Nat
  | b0 :: b1 :: b2 :: b3 :: b4 :: b5 :: b6 :: b7 :: r =>
    .ok (b0 + 256 * (b1 + 256 * (b2 + 256 * (b3 + 256 *
      (b4 + 256 * (b5 + 256 * (b6 + 256 * b7))))))) r
  | _ => .crash

/-- `Bytes::get_u64` (big-endian). -/
def getU64be : List Nat → BufResult Nat
  | b0 :: b1 :: b2 :: b3 :: b4 :: b5 :: b6 :: b7 :: r =>
    .ok (((((((b0 * 256 + b1) * 256 + b2) * 256 + b3) * 256 + b4) * 256 + b5)
      * 256 + b6) * 256 + b7) r
  | _ => .crash

/-- Strict UTF-8 decoding of a byte list, as performed by
`String::from_utf8`: rejects stray continuation bytes, overlong forms,
surrogates and out-of-range code points. -/
def utf8Decode : List Nat → Option (List Char)
  | [] => some []
  | b :: r =>
    if b < 128 then
      (utf8Decode r).map (fun cs => Char.ofNat b :: cs)
    else if 194 ≤ b ∧ b ≤ 223 then
      match r with
      | c1 :: r1 =>
        if 128 ≤ c1 ∧ c1 ≤ 191 then
          (utf8Decode r1).map (fun cs => Char.ofNat ((b - 192) * 64 + (c1 - 128)) :: cs)
        else none
      | _ => none
    else if 224 ≤ b ∧ b ≤ 239 then
      match r with
      | c1 :: c2 :: r2 =>
        let lo1 := if b = 224 then 160 else 128
        let hi1 := if b = 237 then 159 else 191
        if (lo1 ≤ c1 ∧ c1 ≤ hi1) ∧ (128 ≤ c2 ∧ c2 ≤ 191) then
          (utf8Decode r2).map
            (fun cs => Char.ofNat (((b - 224) * 64 + (c1 - 128)) * 64 + (c2 - 128)) :: cs)
        else none
      | _ => none
    else if 240 ≤ b ∧ b ≤ 244 then
      match r with
      | c1 :: c2 :: c3 :: r3 =>
        let lo1 := if b = 240 then 144 else 128
        let hi1 := if b = 244 then 143 else 191
        if (lo1 ≤ c1 ∧ c1 ≤ hi1) ∧ (128 ≤ c2 ∧ c2 ≤ 191) ∧ (128 ≤ c3 ∧ c3 ≤ 191) then
          (utf8Decode r3).map
            (fun cs =>
              Char.ofNat ((((b - 240) * 64 + (c1 - 128)) * 64 + (c2 - 128)) * 64
                + (c3 - 128)) :: cs)
        else none
      | _ => none
    else none

/-- `String::from_utf8` on a byte list. -/
def bytesToString (l : List Nat) : Option String :=
  (utf8Decode l).map (fun cs => String.mk cs)

/-- `read_encoded` of src/storage.rs: the two top bits of the first byte
select the length form (6-bit, 14-bit, 32-bit big-endian) or the integer
string encodings 0xC0/0xC1/0xC2; 0xC3 (LZF) is an error. Reading the
length-prefixed payload uses `copy_to_bytes`, which panics when the buffer
is shorter than the declared length. -/
def readEncoded (content : List Nat) : BufResult String :=
  match content with
  | [] => .err ("Encoded value must not be empty") []
  | sizeEncoding :: rest =>
    let form := sizeEncoding / 64
    if form = 0 then
      match copyToBytes sizeEncoding rest with
      | .ok v r =>
        match bytesToString v with
        | some s => .ok s r
        | none => .err ("invalid utf8") r
      | .err e r => .err e r
      | .crash => .crash
    else if form = 1 then
      match getU8 rest with
      | .ok second r1 =>
        let length := (sizeEncoding % 64) * 256 + second
        match copyToBytes length r1 with
        | .ok v r =>
          match bytesToString v with
          | some s => .ok s r
          | none => .err ("invalid utf8") r
        | .err e r => .err e r
        | .crash => .crash
      | .err e r => .err e r
      | .crash => .crash
    else if form = 2 then
      match getU32be rest with
      | .ok length r1 =>
        match copyToBytes length r1 with
        | .ok v r =>
          match bytesToString v with
          | some s => .ok s r
          | none => .err ("invalid utf8") r
        | .err e r => .err e r
        | .crash => .crash
      | .err e r => .err e r
      | .crash => .crash
    else
      if sizeEncoding = 192 then
        match getU8 rest with
        | .ok v r => .ok (toString v) r
        | .err e r => .err e r
        | .crash => .crash
      else if sizeEncoding = 193 then
        match getU16le rest with
        | .ok v r => .ok (toString v) r
        | .err e r => .err e r
        | .crash => .crash
      else if sizeEncoding = 194 then
        match getU32le rest with
        | .ok v r => .ok (toString v) r
        | .err e r => .err e r
        | .crash => .crash
      else if sizeEncoding = 195 then
        .err ("LZF compressed string is not supported") rest
      else .err ("Unexpected string encoding") rest

/-- A key-value entry decoded from the snapshot; the expiry is kept as the
absolute wall-clock millisecond timestamp that
`unix_timestamp_to_instant` converts. -/
structure RdbEntry where
  key : String
  value : String
  expiresAtMs : Option Nat
deriving DecidableEq

/-- The `read_metadata` loop of src/storage.rs: while the next byte is
0xFA, two encoded fields are read; note the source builds the pair
`(read_encoded(content), read_encoded(content))` so the second read runs
(and can panic) even when the first failed, and a failed pair breaks the
loop without error. The fuel bounds the loop; every iteration consumes at
least the 0xFA byte, so `length + 1` fuel is always enough. -/
def readMetadata : Nat → List Nat → BufResult (List String)
  | 0, c => .err ("out of fuel") c
  | fuel + 1, c =>
    match c with
    | 250 :: rest =>
      match readEncoded rest with
      | .crash => .crash
      | .ok nameField r1 =>
        match readEncoded r1 with
        | .crash => .crash
        | .ok valueField r2 =>
          match readMetadata fuel r2 with
          | .ok tail r3 => .ok ((nameField ++ ":" ++ valueField) :: tail) r3
          | other => other
        | .err _ r2 => .ok [] r2
      | .err _ r1 =>
        match readEncoded r1 with
        | .crash => .crash
        | .ok _ r2 => .ok [] r2
        | .err _ r2 => .ok [] r2
    | _ => .ok [] c

/-- The inner entry loop of `read_database`: reads 0xFD (seconds expiry),
0xFC (milliseconds expiry) and 0x00 (plain) entries until another marker
appears. -/
def readTable : Nat → List Nat → BufResult (List RdbEntry)
  | 0, c => .err ("out of fuel") c
  | fuel + 1, c =>
    match c with
    | 253 :: rest =>
      match getU32le rest with
      | .crash => .crash
      | .err e r => .err e r
      | .ok ts r1 =>
        match getU8 r1 with
        | .crash => .crash
        | .err e r => .err e r
        | .ok indicator r2 =>
          if indicator ≠ 0 then .err ("Expected 0x00 to read key-value") r2
          else
            match readEncoded r2 with
            | .crash => .crash
            | .err e r => .err e r
            | .ok key r3 =>
              match readEncoded r3 with
              | .crash => .crash
              | .err e r => .err e r
              | .ok value r4 =>
                match readTable fuel r4 with
                | .ok tail r5 =>
                  .ok ({ key := key, value := value,
                         expiresAtMs := some (ts * 1000) } :: tail) r5
                | other => other
    | 252 :: rest =>
      match getU64le rest with
      | .crash => .crash
      | .err e r => .err e r
      | .ok ts r1 =>
        match getU8 r1 with
        | .crash => .crash
        | .err e r => .err e r
        | .ok indicator r2 =>
          if indicator ≠ 0 then .err ("Expected 0x00 to read key-value") r2
          else
            match readEncoded r2 with
            | .crash => .crash
            | .err e r => .err e r
            | .ok key r3 =>
              match readEncoded r3 with
              | .crash => .crash
              | .err e r => .err e r
              | .ok value r4 =>
                match readTable fuel r4 with
                | .ok tail r5 =>
                  .ok ({ key := key, value := value,
                         expiresAtMs := some ts } :: tail) r5
                | other => other
    | 0 :: rest =>
      match readEncoded rest with
      | .crash => .crash
      | .err e r => .err e r
      | .ok key r1 =>
        match readEncoded r1 with
        | .crash => .crash
        | .err e r => .err e r
        | .ok value r2 =>
          match readTable fuel r2 with
          | .ok tail r3 =>
            .ok ({ key := key, value := value, expiresAtMs := none } :: tail) r3
          | other => other
    | _ => .ok [] c

/-- The outer section loop of `read_database` of src/storage.rs: for each
0xFE marker, the database index is read, a 0xFB indicator byte is required
(read with the panicking `get_u8`), two size bytes are skipped with the
panicking `advance`, and the entry loop runs. -/
def readDatabase : Nat → List Nat → BufResult (List RdbEntry)
  | 0, c => .err ("out of fuel") c
  | fuel + 1, c =>
    match c with
    | 254 :: rest =>
      match readEncoded rest with
      | .crash => .crash
      | .err e r => .err e r
      | .ok _ r1 =>
        match getU8 r1 with
        | .crash => .crash
        | .err e r => .err e r
        | .ok indicator r2 =>
          if indicator ≠ 251 then .err ("Database indicator 0xFB was expected") r2
          else
            match advanceBy 2 r2 with
            | .crash => .crash
            | .err e r => .err e r
            | .ok _ r3 =>
              match readTable (r3.length + 1) r3 with
              | .crash => .crash
              | .err e r => .err e r
              | .ok entries r4 =>
                match readDatabase fuel r4 with
                | .ok more r5 => .ok (entries ++ more) r5
                | other => other
    | _ => .ok [] c

/-- `read_eof` of src/storage.rs. -/
def readEof (c : List Nat) : BufResult String :=
  match c with
  | [] => .err ("EOF cannot be empty") []
  | first :: rest =>
    if first = 255 then
      if rest.length ≠ 8 then .err ("End of file is expected to be 8 bytes") rest
      else
        match getU64be rest with
        | .ok checkSum r => .ok (toString checkSum) r
        | .err e r => .err e r
        | .crash => .crash
    else .err ("EOF was expected to start with 0xFF") c

/-- `read_database_file` of src/storage.rs: header check (length, magic,
UTF-8 version digits), metadata, database sections, end-of-file record. -/
def readDatabaseFile (bytes : List Nat) : BufResult (List RdbEntry)  :=
  if bytes.length < 9 then
    .err ("File too short to contain valid RDB header") bytes
  else if bytes.take 5 ≠ [82, 69, 68, 73, 83] then
    .err ("Invalid magic string, expected REDIS") bytes
  else
    match bytesToString ((bytes.drop 5).take 4) with
    | none => .err ("invalid version utf8") bytes
    | some _ =>
      let c := bytes.drop 9
      match readMetadata (c.length + 1) c with
      | .crash => .crash
      | .err e r => .err e r
      | .ok _ r1 =>
        match readDatabase (r1.length + 1) r1 with
        | .crash => .crash
        | .err e r => .err e r
        | .ok entries r2 =>
          match readEof r2 with
          | .crash => .crash
          | .err e r => .err e r
          | .ok _ _ => .ok entries bytes

/-- Result of booting the keyspace from a snapshot file. -/
inductive LoadOutcome where
  | table (entries : List (String × StoredValue))
  | crashed
deriving DecidableEq

/-- `Storage::new` of src/storage.rs restricted to its data map: a
successful parse populates the keyspace (later entries for the same key
overwrite earlier ones, as `HashMap::insert` does), a returned parse error
yields the empty keyspace, and a panic aborts the task. The wall-clock
expiry timestamps are carried over unchanged (the `Instant` conversion is
the identity on the modelled millisecond clock). -/
def storageNewData (bytes : List Nat) : LoadOutcome :=
  match readDatabaseFile bytes with
  | .ok entries _ =>
    .table (entries.foldl
      (fun m e => ainsert e.key { value := e.value, expiresAt := e.expiresAtMs } m) [])
  | .err _ _ => .table []
  | .crash => .crashed

/-! ## Observers, specification-side definitions and invariants -/

/-- Whether a command result is a `RedisError`. -/
def CommandResult.isError : CommandResult → Bool
  | .redisError _ => true
  | _ => false

/-- The ZRANGE result as the command layer renders it: the member list on
success, the empty list when the storage layer returns `None`. -/
def zrangeResult (s : SortedSetM) (start stop : Int) : List String :=
  (s.zrange start stop).getD []

/-- Specification-side ZRANGE (from the words of the claim): the members
whose 0-based rank lies in the inclusive range from the converted start to
the converted end clamped to the cardinality minus one, in ascending rank
order; negative indices are converted by adding the cardinality. -/
def zrangeSpec (s : SortedSetM) (start stop : Int) : List String :=
  let len : Int := s.ordered.length
  let start' := if start < 0 then start + len else start
  let stop' := if stop < 0 then stop + len else stop
  let stopClamped := min stop' (len - 1)
  (s.ordered.enum.filter
      (fun p => start' ≤ (p.1 : Int) ∧ (p.1 : Int) ≤ stopClamped)).map
    (fun p => p.2.member)

/-- Every entry of the ordered index carries a finite score. -/
def allFinite (l : List ScoredMember) : Prop :=
  ∀ x ∈ l, x.score.isFinite = true

/-- Structural well-formedness of a sorted set, true of every reachable
set: the ordered index is strictly sorted under the `ScoredMember` order,
the member map has no duplicate keys and only finite scores, and the two
indexes are in exact correspondence. -/
def SortedSetM.Wf (s : SortedSetM) : Prop :=
  List.Pairwise (fun a b => ScoredMember.cmp a b = Ordering.lt) s.ordered
  ∧ (s.by_member.map Prod.fst).Nodup
  ∧ (∀ p ∈ s.by_member, (p.2).isFinite = true)
  ∧ (∀ sc m, hmLookup m s.by_member = some sc ↔
      ({ score := sc, member := m } : ScoredMember) ∈ s.ordered)

/-- The dual-index invariant exactly as the claim states it: a member is
in the member map with a given score precisely when the corresponding
scored pair is in the ordered index (so the scores agree), and the two
indexes have equal cardinality. -/
def DualIndexInv (s : SortedSetM) : Prop :=
  (∀ sc m, hmLookup m s.by_member = some sc ↔
    ({ score := sc, member := m } : ScoredMember) ∈ s.ordered)
  ∧ s.by_member.length = s.ordered.length

/-! ## Concrete states used by the claim-level evaluations -/

/-- A connection with one blocked waiter (client 9) on list `q`. -/
def stWaiter : ProcState := { baseState with
  waiters := [("q", [(9, none)])],
  clientId := 3 }

/-- A keyspace holding the maximal i64 as a string at `x`. -/
def stMaxInt : ProcState := { baseState with
  data := [("x", { value := "9223372036854775807", expiresAt := none })] }

/-- A keyspace holding a non-numeric string at `y`. -/
def stNonInt : ProcState := { baseState with
  data := [("y", { value := "abc", expiresAt := none })] }

/-- A connection inside a transaction with one queued command. -/
def stInTx : ProcState := { baseState with
  txActive := true,
  txQueue := [Cmd.get "x"] }

/-- A connection in subscribe mode, subscribed to channel `news`. -/
def stSubMode : ProcState := { baseState with
  psActive := true,
  psChannels := ["news"],
  clientId := 7,
  hubChannels := [("news", [7])] }

/-- A two-member sorted set with distinct integer scores. -/
def zsTwo : SortedSetM :=
  { by_member := [("a", F64.num 1), ("b", F64.num 2)],
    ordered := [{ score := F64.num 1, member := "a" },
                { score := F64.num 2, member := "b" }] }

/-- The eleven-byte truncated snapshot: a valid header followed by a
metadata marker 0xFA and a length byte 5 with no payload. -/
def rdbTruncated : List Nat :=
  [82, 69, 68, 73, 83, 48, 48, 49, 49, 250, 5]

/-! ## Claim C1: push handoff to blocked waiters -/

/-- C1: the code violates the claim. On a state with one registered waiter
for list `q` and no stored list, `LPUSH q v` replies with the new length 1
but performs no handoff: the waiter queue and the delivery log are
untouched and the element stays in the list. The same push via `RPUSH`
does hand the element to the oldest waiter (the list is drained, the
waiter queue is popped and the delivery is recorded) before the reply. -/
theorem C1_lpush_no_handoff :
    executePrimitive 0 stWaiter (Cmd.lpush "q" ["v"]) =
      some (CommandResult.integer 1, { stWaiter with lists := [("q", ["v"])] })
    ∧ executePrimitive 0 stWaiter (Cmd.rpush "q" ["v"]) =
      some (CommandResult.integer 1, { stWaiter with
        waiters := [],
        delivered := [(9, "q", "v")] })
    ∧ stWaiter.waiters ≠ [] := by
  exact ⟨rfl, rfl, by decide⟩

/-! ## Claim C3: MULTI inside a transaction -/

/-- C3 counterexample: with a transaction active and one queued command,
a second MULTI does not return an error: it returns OK and clears the
queue, so the queued commands are not left unchanged either. -/
theorem C3_nested_multi_counterexample :
    execute 0 stInTx Cmd.multi = some (CommandResult.ok, { stInTx with txQueue := [] })
    ∧ CommandResult.isError CommandResult.ok = false
    ∧ stInTx.txQueue ≠ [] := by
  exact ⟨rfl, rfl, by decide⟩

/-- C3 amended: MULTI always returns OK and resets the transaction state
to active with an empty queue; in particular, a nested MULTI silently
discards the commands already queued instead of returning an error. -/
theorem C3_nested_multi_resets (now : Nat) (st : ProcState) :
    execute now st Cmd.multi =
      some (CommandResult.ok, { st with txActive := true, txQueue := [] }) := rfl

/-! ## Claim C5: INCR overflow handling -/

/-- C5: the code violates the overflow part of the claim. On a key holding
the maximal i64 as a string, INCR does not return the out-of-range error:
it computes `value + 1`, which overflows (panicking in debug builds and
wrapping in release builds, modelled here by two-sided-complement
wrapping), stores the wrapped successor and returns it. The other parts of
the claim hold: a non-integer value yields the error and leaves the store
unchanged, and an absent key is treated as 0. -/
theorem C5_incr_overflow :
    executePrimitive 0 stMaxInt (Cmd.incr "x") =
      some (CommandResult.integer (-9223372036854775808),
        { stMaxInt with
          data := [("x", { value := "-9223372036854775808", expiresAt := none })] })
    ∧ executePrimitive 0 stNonInt (Cmd.incr "y") =
      some (CommandResult.redisError ("value is not an integer or out of range"), stNonInt)
    ∧ executePrimitive 0 baseState (Cmd.incr "z") =
      some (CommandResult.integer 1,
        { baseState with data := [("z", { value := "1", expiresAt := none })] }) := by
  exact ⟨rfl, rfl, rfl⟩

/-! ## Claim C9: snapshot loading totality -/

/-- C9: the code violates the claim. On the eleven-byte truncated snapshot
`REDIS0011 FA 05` the loader calls `copy_to_bytes(5)` with an empty buffer
inside `read_encoded`, which panics instead of abandoning the load, so the
server does not start with an empty keyspace: the loading task aborts. A
parse error that is returned rather than panicking (here: a file too short
for the header) does lead to the empty keyspace as claimed. -/
theorem C9_snapshot_crash :
    storageNewData rdbTruncated = LoadOutcome.crashed
    ∧ storageNewData [0] = LoadOutcome.table [] := by
  exact ⟨rfl, rfl⟩

/-! ## Claim C10: duplicate SUBSCRIBE -/

/-- C10: subscribing to a channel the connection already tracks returns
the error `Failed to subscribe to the channel` and leaves the whole
processor state (in particular the subscription set and its count)
unchanged; no `[subscribe, channel, count]` confirmation is produced. -/
theorem C10_duplicate_subscribe (now : Nat) (st : ProcState) (channel : String)
    (h : st.psChannels.contains channel = true) :
    executePrimitive now st (Cmd.subscribe channel) =
      some (CommandResult.redisError ("Failed to subscribe to the channel"), st) := by
  simp only [executePrimitive, h, if_true]

/-- C10 witness: the subscribe-mode state `stSubMode` already tracks
channel `news`. -/
theorem C10_duplicate_subscribe_witness :
    stSubMode.psChannels.contains "news" = true
    ∧ executePrimitive 0 stSubMode (Cmd.subscribe "news") =
      some (CommandResult.redisError ("Failed to subscribe to the channel"), stSubMode) :=
  ⟨rfl, C10_duplicate_subscribe 0 stSubMode "news" rfl⟩

/-! ## Claim C2: resumable decoding

The decoder only ever consumes from the front of the buffer, so the state
of the buffer after any call is a suffix of the input. The suffix lemmas
below establish that for every parsing function; the claim itself fails
because on a fractional frame the consumed prefix is not restored and the
error is indistinguishable from a malformed-frame error. -/

theorem readUntilCrlf_suffix : ∀ (l acc : List Nat), (readUntilCrlf acc l).2 <:+ l
  | b :: c :: rest, acc => by
    by_cases h : b = 13 ∧ c = 10
    · simpa [readUntilCrlf, h] using
        ((List.suffix_cons c rest).trans (List.suffix_cons b (c :: rest)))
    · have ih := readUntilCrlf_suffix (c :: rest) (b :: acc)
      simpa [readUntilCrlf, h] using ih.trans (List.suffix_cons b (c :: rest))
  | [], _ => by simp [readUntilCrlf]
  | [b], _ => by simp [readUntilCrlf]

theorem parseSimpleString_suffix (buf : List Nat) :
    (parseSimpleString buf).2 <:+ buf := by
  have h := readUntilCrlf_suffix buf []
  unfold parseSimpleString
  rcases hr : readUntilCrlf [] buf with ⟨res, rest⟩
  rw [hr] at h
  cases res <;> simpa using h

theorem parseInteger_suffix (buf : List Nat) :
    (parseInteger buf).2 <:+ buf := by
  have h := readUntilCrlf_suffix buf []
  unfold parseInteger
  split <;> rename_i heq
  · rw [heq] at h
    simpa using h
  · rw [heq] at h
    split <;> simpa using h

theorem parseDouble_suffix (buf : List Nat) :
    (parseDouble buf).2 <:+ buf := by
  have h := readUntilCrlf_suffix buf []
  unfold parseDouble
  rcases hr : readUntilCrlf [] buf with ⟨res, rest⟩
  rw [hr] at h
  cases res with
  | error e => simpa using h
  | ok line =>
    by_cases hf : isF64Text line = true <;> simp [hf] <;> simpa using h

theorem parseBulkStringWithLen_suffix (len : Int) (buf : List Nat) :
    (parseBulkStringWithLen len buf).2 <:+ buf := by
  unfold parseBulkStringWithLen
  split_ifs with h1 h2
  · simp
  · simp
  · have hdrop : buf.drop len.toNat <:+ buf := List.drop_suffix len.toNat buf
    rcases hd : buf.drop len.toNat with _ | ⟨a, tail⟩
    · simpa [hd] using (by rw [hd] at hdrop; simpa using hdrop : ([] : List Nat) <:+ buf)
    · rw [hd] at hdrop
      cases tail with
      | nil => simpa [hd] using hdrop
      | cons c rest2 =>
        have h2' : rest2 <:+ buf :=
          ((List.suffix_cons c rest2).trans (List.suffix_cons a (c :: rest2))).trans hdrop
        by_cases hab : a = 13 ∧ c = 10 <;> simpa [hd, hab] using h2'

theorem parseBulkString_suffix (buf : List Nat) :
    (parseBulkString buf).2 <:+ buf := by
  have h := readUntilCrlf_suffix buf []
  unfold parseBulkString
  rcases hr : readUntilCrlf [] buf with ⟨res, rest⟩
  rw [hr] at h
  cases res with
  | error e => simpa using h
  | ok lengthStr =>
    cases hp : parseI32 lengthStr with
    | none => simpa [hp] using h
    | some len =>
      simp only [hp]
      exact (parseBulkStringWithLen_suffix len rest).trans (by simpa using h)

theorem parse_suffix (fuel : Nat) :
    (∀ buf, (parseValue fuel buf).2 <:+ buf)
    ∧ (∀ count buf, (parseArrayWithCount fuel count buf).2 <:+ buf)
    ∧ (∀ n buf, (parseMany fuel n buf).2 <:+ buf) := by
  induction fuel with
  | zero =>
    refine ⟨fun buf => by simp [parseValue], fun count buf => by simp [parseArrayWithCount],
      fun n buf => ?_⟩
    cases n <;> simp [parseMany]
  | succ fuel ih =>
    obtain ⟨ihV, ihA, ihM⟩ := ih
    have hMany : ∀ n buf, (parseMany (fuel + 1) n buf).2 <:+ buf := by
      intro n buf
      cases n with
      | zero => simp [parseMany]
      | succ n =>
        have h1 := ihV buf
        simp only [parseMany]
        split <;> rename_i x r heq
        · rw [heq] at h1
          simpa using h1
        · rw [heq] at h1
          have h2 := ihM n r
          split <;> rename_i y r2 heq2 <;> rw [heq2] at h2 <;>
            simpa using (List.IsSuffix.trans (by simpa using h2) (by simpa using h1))
    refine ⟨?_, ?_, hMany⟩
    · intro buf
      cases buf with
      | nil => simp [parseValue]
      | cons b rest =>
        have hcons : rest <:+ b :: rest := List.suffix_cons b rest
        simp only [parseValue]
        split_ifs with h43 h36 h42 h58 h44
        · exact (parseSimpleString_suffix rest).trans hcons
        · exact (parseBulkString_suffix rest).trans hcons
        · have hruf := readUntilCrlf_suffix rest []
          rcases hr : readUntilCrlf [] rest with ⟨res, r⟩
          rw [hr] at hruf
          have hr' : r <:+ rest := by simpa using hruf
          cases res with
          | error e => simpa using hr'.trans hcons
          | ok countStr =>
            cases hpc : parseI32 countStr with
            | none => simpa [hpc] using hr'.trans hcons
            | some count =>
              simp only [hpc]
              exact ((ihA count r).trans hr').trans hcons
        · exact (parseInteger_suffix rest).trans hcons
        · exact (parseDouble_suffix rest).trans hcons
        · simpa using hcons
    · intro count buf
      simp only [parseArrayWithCount]
      split_ifs with h
      · simp
      · have h2 := ihM count.toNat buf
        rcases hm : parseMany fuel count.toNat buf with ⟨res, r⟩
        rw [hm] at h2
        cases res <;> simpa using h2

/-- C2 counterexample: the buffer `+OK\r` holds a fractional frame (its
completion is `+OK\r\n`), yet the decoder does not report a
zero-consumption need-more: it returns the generic error `CRLF not found`
having consumed three bytes, leaving only `[13]` in the buffer. -/
theorem C2_partial_frame_consumes :
    parseValueTop [43, 79, 75, 13] = (Except.error ("CRLF not found"), [13])
    ∧ ([13] : List Nat) ≠ [43, 79, 75, 13] := by
  exact ⟨rfl, by decide⟩

/-- C2 amended: the decoder consumes only from the front, so the buffer
after any call is a suffix of the input, and a buffer holding one complete
frame yields the decoded value with the tail left in the buffer for the
next call; but on a fractional frame it returns an ordinary parse error
with the examined bytes already consumed, rather than a need-more report
that consumes nothing, and `Parser::parse_command` surfaces no
consumed-byte count. -/
theorem C2_decoder_consumes_from_front :
    (∀ fuel buf, (parseValue fuel buf).2 <:+ buf)
    ∧ parseValueTop ([43, 79, 75, 13, 10] ++ [88, 89]) =
        (Except.ok (Value.simpleString [79, 75]), [88, 89])
    ∧ parseValueTop [43, 79, 75, 13] = (Except.error ("CRLF not found"), [13]) :=
  ⟨fun fuel => (parse_suffix fuel).1, rfl, rfl⟩

/-! ## Claim C4: the subscribe-mode command gate -/

/-- C4 counterexample: in subscribe mode, MULTI does not return the error
`Cant execute MULTI`; it is matched by the transaction layer before the
subscribe-mode gate and returns OK, entering a transaction. -/
theorem C4_multi_bypasses_gate :
    execute 0 stSubMode Cmd.multi =
      some (CommandResult.ok, { stSubMode with txActive := true, txQueue := [] })
    ∧ CommandResult.isError CommandResult.ok = false := by
  exact ⟨rfl, rfl⟩

/-- C4 amended: in subscribe mode with no transaction active, PING answers
with the 2-element array `[pong, ""]` rather than `+PONG`; every command
other than SUBSCRIBE, UNSUBSCRIBE, PING and the transaction commands
returns the error `Cant execute CMD`; SUBSCRIBE and UNSUBSCRIBE fall
through to the executor; and MULTI (like EXEC and DISCARD) bypasses the
subscribe-mode gate entirely, MULTI entering a transaction with OK. -/
theorem C4_subscribe_mode_gate (now : Nat) (st : ProcState) (cmd : Cmd)
    (hps : st.psActive = true) (htx : st.txActive = false) :
    (cmd = Cmd.ping →
      execute now st cmd =
        some (CommandResult.array
          [CommandResult.value (some "pong"), CommandResult.value (some "")], st))
    ∧ (allowedInSubscribeMode cmd = false → cmd ≠ Cmd.multi → cmd ≠ Cmd.exec →
        cmd ≠ Cmd.discard →
        execute now st cmd =
          some (CommandResult.redisError
            ("Can\x27t execute \x27" ++ cmd.name ++ "\x27"), st))
    ∧ (allowedInSubscribeMode cmd = true → cmd ≠ Cmd.ping →
        execute now st cmd = executePrimitive now st cmd)
    ∧ execute now st Cmd.multi =
        some (CommandResult.ok, { st with txActive := true, txQueue := [] }) := by
  refine ⟨?_, ?_, ?_, rfl⟩
  · intro h
    subst h
    simp [execute, htx, hps]
  · intro hna h1 h2 h3
    cases cmd <;> simp_all [execute, allowedInSubscribeMode, htx, hps]
  · intro ha hp
    cases cmd <;> simp_all [execute, allowedInSubscribeMode, htx, hps]

/-- C4 witness: the gate theorem applied in the concrete subscribe-mode
state to GET (rejected), PING (pong array) and UNSUBSCRIBE (dispatched). -/
theorem C4_subscribe_mode_gate_witness :
    stSubMode.psActive = true
    ∧ stSubMode.txActive = false
    ∧ execute 0 stSubMode (Cmd.get "x") =
        some (CommandResult.redisError ("Can\x27t execute \x27GET\x27"), stSubMode)
    ∧ execute 0 stSubMode Cmd.ping =
        some (CommandResult.array
          [CommandResult.value (some "pong"), CommandResult.value (some "")], stSubMode)
    ∧ execute 0 stSubMode (Cmd.unsubscribe "news") =
        executePrimitive 0 stSubMode (Cmd.unsubscribe "news") :=
  ⟨rfl, rfl,
   (C4_subscribe_mode_gate 0 stSubMode (Cmd.get "x") rfl rfl).2.1 rfl
     (by decide) (by decide) (by decide),
   (C4_subscribe_mode_gate 0 stSubMode Cmd.ping rfl rfl).1 rfl,
   (C4_subscribe_mode_gate 0 stSubMode (Cmd.unsubscribe "news") rfl rfl).2.2.1 rfl
     (by decide)⟩

/-! ## Claim C7: ZRANGE index semantics -/

theorem fst_lt_length_of_mem_enum {α : Type} {l : List α} {p : Nat × α}
    (h : p ∈ l.enum) : p.1 < l.length := by
  obtain ⟨i, x⟩ := p
  rw [List.mk_mem_enum_iff_getElem?] at h
  exact (List.getElem?_eq_some.mp h).1

/-- The heart of C7: the guarded filter the source runs (reject when the
converted start is past the size or beyond the converted end, then filter
between `max start 0` and `min stop size`) equals the specification filter
(ranks between the converted start and the converted end clamped to
`size - 1`), once a `None` from the guard is rendered as the empty list. -/
theorem zrange_core (l : List ScoredMember) (s' e' : Int) :
    (if s' ≥ (l.length : Int) ∨ s' > e' then (none : Option (List String))
     else some ((l.enum.filter
        (fun p => max s' 0 ≤ (p.1 : Int) ∧ (p.1 : Int) ≤ min e' (l.length : Int))).map
       (fun p => p.2.member))).getD []
    = (l.enum.filter
        (fun p => s' ≤ (p.1 : Int) ∧ (p.1 : Int) ≤ min e' ((l.length : Int) - 1))).map
      (fun p => p.2.member) := by
  by_cases h : s' ≥ (l.length : Int) ∨ s' > e'
  · rw [if_pos h, Option.getD_none]
    have hnil : l.enum.filter
        (fun p => s' ≤ (p.1 : Int) ∧ (p.1 : Int) ≤ min e' ((l.length : Int) - 1)) = [] := by
      rw [List.filter_eq_nil]
      intro p hp
      have hlt := fst_lt_length_of_mem_enum hp
      simp only [decide_eq_true_eq, not_and, not_le]
      omega
    rw [hnil, List.map_nil]
  · rw [if_neg h, Option.getD_some]
    push_neg at h
    have hfil : l.enum.filter
        (fun p => max s' 0 ≤ (p.1 : Int) ∧ (p.1 : Int) ≤ min e' (l.length : Int))
        = l.enum.filter
        (fun p => s' ≤ (p.1 : Int) ∧ (p.1 : Int) ≤ min e' ((l.length : Int) - 1)) := by
      apply List.filter_congr
      intro p hp
      have hlt := fst_lt_length_of_mem_enum hp
      rw [decide_eq_decide]
      omega
    rw [hfil]

/-- C7: at the command layer (where a `None` from the storage layer is
rendered as an empty array), ZRANGE on a sorted set whose two indexes have
equal cardinality returns exactly the members whose 0-based rank lies in
the inclusive range from the converted start to the converted end clamped
to the cardinality minus one, in rank order; negative indices are
converted by adding the cardinality, and the result is empty when the
converted start is past the end of the set or beyond the converted end. -/
theorem C7_zrange_matches_spec (s : SortedSetM) (start stop : Int)
    (hlen : s.by_member.length = s.ordered.length) :
    zrangeResult s start stop = zrangeSpec s start stop := by
  simp only [zrangeResult, SortedSetM.zrange, zrangeSpec]
  rw [hlen]
  have hstart : (if start < 0 then (s.ordered.length : Int) + start else start)
      = (if start < 0 then start + (s.ordered.length : Int) else start) := by
    split_ifs <;> omega
  have hstop : (if stop < 0 then (s.ordered.length : Int) + stop else stop)
      = (if stop < 0 then stop + (s.ordered.length : Int) else stop) := by
    split_ifs <;> omega
  rw [hstart, hstop]
  exact zrange_core s.ordered
    (if start < 0 then start + (s.ordered.length : Int) else start)
    (if stop < 0 then stop + (s.ordered.length : Int) else stop)

/-- C7 witness: on the two-member set, `ZRANGE 0 -1` returns all members
under both the source computation and the specification filter. -/
theorem C7_zrange_matches_spec_witness :
    zsTwo.by_member.length = zsTwo.ordered.length
    ∧ zrangeResult zsTwo 0 (-1) = zrangeSpec zsTwo 0 (-1)
    ∧ zrangeResult zsTwo 0 (-1) = ["a", "b"] :=
  ⟨rfl, C7_zrange_matches_spec zsTwo 0 (-1) rfl, rfl⟩

/-! ## Claim C8: the dual-index sorted-set invariant

The lemma stack below establishes the comparator laws (on well-formed,
finite-score elements the `ScoredMember` order is the lexicographic order
on score and member bytes), the behaviour of the `BTreeSet` insert and
remove models on sorted lists, the behaviour of the `HashMap` association
list model, and finally preservation of well-formedness by `zadd` and
`zrem`. -/

theorem lexCmp_eq_iff : ∀ a b : List Nat, lexCmp a b = Ordering.eq ↔ a = b
  | [], [] => by simp [lexCmp]
  | [], _ :: _ => by simp [lexCmp]
  | _ :: _, [] => by simp [lexCmp]
  | x :: xs, y :: ys => by
    simp only [lexCmp]
    split_ifs with h1 h2
    · simp
      omega
    · simp
      omega
    · have hxy : x = y := by omega
      rw [lexCmp_eq_iff xs ys]
      subst hxy
      simp

theorem lexCmp_self (a : List Nat) : lexCmp a a = Ordering.eq :=
  (lexCmp_eq_iff a a).mpr rfl

theorem lexCmp_gt_iff : ∀ a b : List Nat, lexCmp a b = Ordering.gt ↔ lexCmp b a = Ordering.lt
  | [], [] => by simp [lexCmp]
  | [], _ :: _ => by simp [lexCmp]
  | _ :: _, [] => by simp [lexCmp]
  | x :: xs, y :: ys => by
    simp only [lexCmp]
    split_ifs with h1 h2 h3 h4 h5 h6 h7 h8 <;>
      first
        | (exfalso; omega)
        | simp
        | (exact lexCmp_gt_iff xs ys)

theorem lexCmp_trans_lt : ∀ a b c : List Nat, lexCmp a b = Ordering.lt →
    lexCmp b c = Ordering.lt → lexCmp a c = Ordering.lt
  | [], b, c, h1, h2 => by
    cases c with
    | nil => cases b <;> simp_all [lexCmp]
    | cons z zs => simp [lexCmp]
  | x :: xs, [], c, h1, h2 => by simp [lexCmp] at h1
  | x :: xs, y :: ys, [], h1, h2 => by simp [lexCmp] at h2
  | x :: xs, y :: ys, z :: zs, h1, h2 => by
    simp only [lexCmp] at h1 h2 ⊢
    by_cases hxy : x < y
    · by_cases hyz : y < z
      · rw [if_pos (show x < z by omega)]
      · by_cases hzy : z < y
        · rw [if_neg hyz, if_pos hzy] at h2
          exact absurd h2 (by simp)
        · rw [if_pos (show x < z by omega)]
    · by_cases hyx : y < x
      · rw [if_neg hxy, if_pos hyx] at h1
        exact absurd h1 (by simp)
      · rw [if_neg hxy, if_neg hyx] at h1
        by_cases hxz : x < z
        · rw [if_pos hxz]
        · by_cases hzx : z < x
          · rw [if_neg (show ¬ y < z by omega), if_pos (show z < y by omega)] at h2
            exact absurd h2 (by simp)
          · rw [if_neg (show ¬ y < z by omega), if_neg (show ¬ z < y by omega)] at h2
            rw [if_neg hxz, if_neg hzx]
            exact lexCmp_trans_lt xs ys zs h1 h2

theorem strBytes_inj {a b : String} (h : strBytes a = strBytes b) : a = b := by
  unfold strBytes at h
  refine String.ext ?_
  have hinj : Function.Injective Char.toNat := by
    intro c d hcd
    exact Char.ext (UInt32.ext hcd)
  exact List.map_injective_iff.mpr hinj h

theorem strCmp_eq_iff {a b : String} : strCmp a b = Ordering.eq ↔ a = b := by
  unfold strCmp
  rw [lexCmp_eq_iff]
  constructor
  · exact strBytes_inj
  · intro h
    rw [h]

theorem strCmp_self (a : String) : strCmp a a = Ordering.eq :=
  strCmp_eq_iff.mpr rfl

theorem strCmp_gt_iff {a b : String} : strCmp a b = Ordering.gt ↔ strCmp b a = Ordering.lt :=
  lexCmp_gt_iff _ _

theorem strCmp_trans_lt {a b c : String} (h1 : strCmp a b = Ordering.lt)
    (h2 : strCmp b c = Ordering.lt) : strCmp a c = Ordering.lt :=
  lexCmp_trans_lt _ _ _ h1 h2

/-! ### ScoredMember comparator laws (on finite scores) -/

/-- A finite score is a `num`. -/
theorem F64.isFinite_iff {s : F64} : s.isFinite = true ↔ ∃ v, s = F64.num v := by
  cases s <;> simp [F64.isFinite]

theorem smCmp_self (a : ScoredMember) : a.cmp a = Ordering.eq := by
  unfold ScoredMember.cmp
  cases hs : a.score <;>
    simp [F64.partialCmp, strCmp_self, compare_eq_iff_eq.mpr rfl]

theorem smCmp_eq_iff {a b : ScoredMember} (ha : a.score.isFinite = true)
    (hb : b.score.isFinite = true) : a.cmp b = Ordering.eq ↔ a = b := by
  obtain ⟨sa, ma⟩ := a
  obtain ⟨sb, mb⟩ := b
  cases sa <;> cases sb <;> simp_all [F64.isFinite]
  rename_i va vb
  unfold ScoredMember.cmp
  simp only [F64.partialCmp]
  rcases hc : compare va vb with _ | _ | _
  · simp [ScoredMember.mk.injEq]
    intro hv
    rw [compare_lt_iff_lt] at hc
    omega
  · rw [compare_eq_iff_eq] at hc
    subst hc
    simp [strCmp_eq_iff, ScoredMember.mk.injEq]
  · simp [ScoredMember.mk.injEq]
    intro hv
    rw [compare_gt_iff_gt] at hc
    omega

theorem smCmp_swap_gt {a b : ScoredMember} :
    a.cmp b = Ordering.gt ↔ b.cmp a = Ordering.lt := by
  obtain ⟨sa, ma⟩ := a
  obtain ⟨sb, mb⟩ := b
  unfold ScoredMember.cmp
  cases sa <;> cases sb <;>
    simp_all [F64.partialCmp, strCmp_gt_iff]
  rename_i va vb
  rcases hc : compare va vb with _ | _ | _ <;>
    rcases hd : compare vb va with _ | _ | _ <;>
      simp_all [compare_lt_iff_lt, compare_eq_iff_eq, compare_gt_iff_gt, strCmp_gt_iff] <;>
        omega

theorem smCmp_trans_lt {a b c : ScoredMember} (ha : a.score.isFinite = true)
    (hb : b.score.isFinite = true) (hc : c.score.isFinite = true)
    (h1 : a.cmp b = Ordering.lt) (h2 : b.cmp c = Ordering.lt) :
    a.cmp c = Ordering.lt := by
  obtain ⟨sa, ma⟩ := a
  obtain ⟨sb, mb⟩ := b
  obtain ⟨sc', mc⟩ := c
  obtain ⟨va, rfl⟩ := F64.isFinite_iff.mp ha
  obtain ⟨vb, rfl⟩ := F64.isFinite_iff.mp hb
  obtain ⟨vc, rfl⟩ := F64.isFinite_iff.mp hc
  unfold ScoredMember.cmp at h1 h2 ⊢
  simp only [F64.partialCmp] at h1 h2 ⊢
  rcases hab : compare va vb with _ | _ | _ <;> rw [hab] at h1 <;> simp at h1
  · have hvab : va < vb := compare_lt_iff_lt.mp hab
    rcases hbc : compare vb vc with _ | _ | _ <;> rw [hbc] at h2 <;> simp at h2
    · have hvbc : vb < vc := compare_lt_iff_lt.mp hbc
      rw [show compare va vc = Ordering.lt from compare_lt_iff_lt.mpr (by omega)]
    · have hvbc : vb = vc := compare_eq_iff_eq.mp hbc
      rw [show compare va vc = Ordering.lt from compare_lt_iff_lt.mpr (by omega)]
  · have hvab : va = vb := compare_eq_iff_eq.mp hab
    rcases hbc : compare vb vc with _ | _ | _ <;> rw [hbc] at h2 <;> simp at h2
    · have hvbc : vb < vc := compare_lt_iff_lt.mp hbc
      rw [show compare va vc = Ordering.lt from compare_lt_iff_lt.mpr (by omega)]
    · have hvbc : vb = vc := compare_eq_iff_eq.mp hbc
      rw [show compare va vc = Ordering.eq from compare_eq_iff_eq.mpr (by omega)]
      simp only []
      exact strCmp_trans_lt h1 h2

/-! ### BTreeSet model lemmas -/

/-- Everything in `btInsert x l` is `x` or from `l`. -/
theorem mem_btInsert_elim {x z : ScoredMember} : ∀ {l : List ScoredMember},
    z ∈ btInsert x l → z = x ∨ z ∈ l := by
  intro l
  induction l with
  | nil => intro h; simpa [btInsert] using h
  | cons y ys ih =>
    intro h
    unfold btInsert at h
    split at h
    · rcases List.mem_cons.mp h with h | h
      · exact Or.inl h
      · exact Or.inr h
    · exact Or.inr h
    · rcases List.mem_cons.mp h with h | h
      · exact Or.inr (by simp [h])
      · rcases ih h with h' | h'
        · exact Or.inl h'
        · exact Or.inr (List.mem_cons_of_mem y h')

/-- When no element of `l` is `Ord`-equal to `x`, `btInsert` genuinely
adds `x`. -/
theorem mem_btInsert {x z : ScoredMember} : ∀ {l : List ScoredMember},
    (∀ w ∈ l, x.cmp w ≠ Ordering.eq) →
    (z ∈ btInsert x l ↔ z = x ∨ z ∈ l) := by
  intro l
  induction l with
  | nil => intro _; simp [btInsert]
  | cons y ys ih =>
    intro hno
    unfold btInsert
    rcases hc : x.cmp y with _ | _ | _
    · simp
    · exact absurd hc (hno y (List.mem_cons_self y ys))
    · have hys := ih (fun w hw => hno w (List.mem_cons_of_mem y hw))
      simp only [List.mem_cons, hys]
      tauto

/-- `btInsert` preserves the finite-score property. -/
theorem allFinite_btInsert {x : ScoredMember} {l : List ScoredMember}
    (hl : allFinite l) (hx : x.score.isFinite = true) :
    allFinite (btInsert x l) := by
  intro z hz
  rcases mem_btInsert_elim hz with h | h
  · rw [h]; exact hx
  · exact hl z h

/-- `btInsert` preserves strict sortedness when everything in sight is
finite. -/
theorem btInsert_pairwise {x : ScoredMember} : ∀ {l : List ScoredMember},
    List.Pairwise (fun a b => a.cmp b = Ordering.lt) l →
    allFinite l → x.score.isFinite = true →
    List.Pairwise (fun a b => a.cmp b = Ordering.lt) (btInsert x l) := by
  intro l
  induction l with
  | nil => intro _ _ _; simp [btInsert]
  | cons y ys ih =>
    intro hp hf hx
    have hy := List.pairwise_cons.mp hp
    have hfy : y.score.isFinite = true := hf y (List.mem_cons_self y ys)
    have hfys : allFinite ys := fun w hw => hf w (List.mem_cons_of_mem y hw)
    unfold btInsert
    rcases hc : x.cmp y with _ | _ | _
    · refine List.pairwise_cons.mpr ⟨?_, hp⟩
      intro z hz
      rcases List.mem_cons.mp hz with h | h
      · rw [h]; exact hc
      · exact smCmp_trans_lt hx hfy (hfys z h) hc (hy.1 z h)
    · exact hp
    · refine List.pairwise_cons.mpr ⟨?_, ih hy.2 hfys hx⟩
      intro z hz
      rcases mem_btInsert_elim hz with h | h
      · rw [h]; exact smCmp_swap_gt.mp hc
      · exact hy.1 z h

/-- `btRemove` yields a sublist. -/
theorem btRemove_sublist (x : ScoredMember) : ∀ l : List ScoredMember,
    List.Sublist (btRemove x l) l := by
  intro l
  induction l with
  | nil => simp [btRemove]
  | cons y ys ih =>
    unfold btRemove
    rcases x.cmp y with _ | _ | _
    · exact List.Sublist.refl _
    · exact List.sublist_cons_self y ys
    · exact List.Sublist.cons₂ y ih

/-- On a sorted, finite-score list, `btRemove x` removes exactly `x`. -/
theorem mem_btRemove {x z : ScoredMember} (hx : x.score.isFinite = true) :
    ∀ {l : List ScoredMember},
    List.Pairwise (fun a b => a.cmp b = Ordering.lt) l → allFinite l →
    (z ∈ btRemove x l ↔ z ∈ l ∧ z ≠ x) := by
  intro l
  induction l with
  | nil => intro _ _; simp [btRemove]
  | cons y ys ih =>
    intro hp hf
    have hy := List.pairwise_cons.mp hp
    have hfy : y.score.isFinite = true := hf y (List.mem_cons_self y ys)
    have hfys : allFinite ys := fun w hw => hf w (List.mem_cons_of_mem y hw)
    unfold btRemove
    rcases hc : x.cmp y with _ | _ | _
    · -- x is strictly below the head, hence not in the sorted list at all
      have hxnot : x ∉ y :: ys := by
        intro hmem
        rcases List.mem_cons.mp hmem with h | h
        · rw [h] at hc
          rw [smCmp_self] at hc
          exact absurd hc (by simp)
        · have := smCmp_trans_lt hx hfy (hfys x h) hc (hy.1 x h)
          rw [smCmp_self] at this
          exact absurd this (by simp)
      constructor
      · intro hz
        exact ⟨hz, fun he => hxnot (he ▸ hz)⟩
      · intro hz
        exact hz.1
    · have hxy : x = y := (smCmp_eq_iff hx hfy).mp hc
      subst hxy
      have hxnot : x ∉ ys := by
        intro hmem
        have := hy.1 x hmem
        rw [smCmp_self] at this
        exact absurd this (by simp)
      constructor
      · intro hz
        refine ⟨List.mem_cons_of_mem x hz, ?_⟩
        intro he
        exact hxnot (he ▸ hz)
      · intro hz
        rcases List.mem_cons.mp hz.1 with h | h
        · exact absurd h hz.2
        · exact h
    · have hxy : x ≠ y := by
        intro he
        rw [he, smCmp_self] at hc
        exact absurd hc (by simp)
      rw [List.mem_cons, ih hy.2 hfys, List.mem_cons]
      constructor
      · rintro (h | ⟨h1, h2⟩)
        · exact ⟨Or.inl h, by rw [h]; exact fun he => hxy he.symm⟩
        · exact ⟨Or.inr h1, h2⟩
      · rintro ⟨h | h, h2⟩
        · exact Or.inl h
        · exact Or.inr ⟨h, h2⟩

/-! ### HashMap model lemmas -/

theorem hmLookup_hmInsert (m' m : String) (v : F64) : ∀ l : List (String × F64),
    hmLookup m' (hmInsert m v l) =
      if m' = m then some v else hmLookup m' l := by
  intro l
  induction l with
  | nil =>
    simp only [hmInsert, hmLookup]
    by_cases h : m = m'
    · subst h; simp
    · rw [if_neg h, if_neg (fun he => h he.symm)]
  | cons p t ih =>
    obtain ⟨k, w⟩ := p
    simp only [hmInsert]
    by_cases hk : k = m
    · subst hk
      simp only [if_pos rfl, hmLookup]
      by_cases h : m' = k
      · subst h; simp
      · rw [if_neg (fun he => h he.symm), if_neg h, if_neg (fun he => h he.symm)]
    · rw [if_neg hk]
      simp only [hmLookup]
      by_cases h : k = m'
      · subst h
        rw [if_pos rfl, if_neg ?_, if_pos rfl]
        intro he
        exact hk he
      · rw [if_neg h, ih, if_neg h]

theorem mem_keys_hmInsert (k' m : String) (v : F64) : ∀ l : List (String × F64),
    (k' ∈ (hmInsert m v l).map Prod.fst ↔ k' = m ∨ k' ∈ l.map Prod.fst) := by
  intro l
  induction l with
  | nil => simp [hmInsert]
  | cons p t ih =>
    obtain ⟨k, w⟩ := p
    simp only [hmInsert]
    by_cases hk : k = m
    · subst hk
      simp
    · rw [if_neg hk]
      simp only [List.map_cons, List.mem_cons, ih]
      tauto

theorem keys_nodup_hmInsert (m : String) (v : F64) : ∀ l : List (String × F64),
    (l.map Prod.fst).Nodup → ((hmInsert m v l).map Prod.fst).Nodup := by
  intro l
  induction l with
  | nil => intro _; simp [hmInsert]
  | cons p t ih =>
    obtain ⟨k, w⟩ := p
    intro hn
    simp only [List.map_cons, List.nodup_cons] at hn
    simp only [hmInsert]
    by_cases hk : k = m
    · subst hk
      simpa [List.nodup_cons] using hn
    · rw [if_neg hk]
      simp only [List.map_cons, List.nodup_cons]
      refine ⟨?_, ih hn.2⟩
      rw [mem_keys_hmInsert]
      rintro (h | h)
      · exact hk h
      · exact hn.1 h

theorem values_finite_hmInsert (m : String) (v : F64) (hv : v.isFinite = true) :
    ∀ l : List (String × F64), (∀ p ∈ l, (p.2).isFinite = true) →
    ∀ p ∈ hmInsert m v l, (p.2).isFinite = true := by
  intro l
  induction l with
  | nil =>
    intro _ p hp
    simp only [hmInsert, List.mem_singleton] at hp
    rw [hp]
    exact hv
  | cons q t ih =>
    obtain ⟨k, w⟩ := q
    intro hall p hp
    simp only [hmInsert] at hp
    by_cases hk : k = m
    · subst hk
      rw [if_pos rfl] at hp
      rcases List.mem_cons.mp hp with h | h
      · rw [h]; exact hv
      · exact hall p (List.mem_cons_of_mem _ h)
    · rw [if_neg hk] at hp
      rcases List.mem_cons.mp hp with h | h
      · rw [h]; exact hall (k, w) (List.mem_cons_self _ _)
      · exact ih (fun q hq => hall q (List.mem_cons_of_mem _ hq)) p h

theorem keys_hmRemove_sublist (m : String) : ∀ l : List (String × F64),
    List.Sublist ((hmRemove m l).map Prod.fst) (l.map Prod.fst) := by
  intro l
  induction l with
  | nil => simp [hmRemove]
  | cons p t ih =>
    obtain ⟨k, w⟩ := p
    simp only [hmRemove]
    by_cases hk : k = m
    · rw [if_pos hk]
      simp only [List.map_cons]
      exact List.sublist_cons_self k (t.map Prod.fst)
    · rw [if_neg hk]
      simp only [List.map_cons]
      exact List.Sublist.cons₂ k ih

theorem hmRemove_subset (m : String) : ∀ l : List (String × F64),
    ∀ p ∈ hmRemove m l, p ∈ l := by
  intro l
  induction l with
  | nil => simp [hmRemove]
  | cons q t ih =>
    obtain ⟨k, w⟩ := q
    intro p hp
    simp only [hmRemove] at hp
    by_cases hk : k = m
    · rw [if_pos hk] at hp
      exact List.mem_cons_of_mem _ hp
    · rw [if_neg hk] at hp
      rcases List.mem_cons.mp hp with h | h
      · rw [h]; exact List.mem_cons_self _ _
      · exact List.mem_cons_of_mem _ (ih p h)

theorem hmLookup_hmRemove (m' m : String) : ∀ l : List (String × F64),
    (l.map Prod.fst).Nodup →
    hmLookup m' (hmRemove m l) =
      if m' = m then none else hmLookup m' l := by
  intro l
  induction l with
  | nil => intro _; simp [hmRemove, hmLookup]
  | cons p t ih =>
    obtain ⟨k, w⟩ := p
    intro hn
    simp only [List.map_cons, List.nodup_cons] at hn
    simp only [hmRemove]
    by_cases hk : k = m
    · subst hk
      rw [if_pos rfl]
      by_cases h : m' = k
      · subst h
        rw [if_pos rfl]
        -- the key was unique, so it no longer resolves
        cases hl : hmLookup m' t with
        | none => rfl
        | some w' =>
          exfalso
          have : m' ∈ t.map Prod.fst := by
            clear ih hn
            induction t with
            | nil => simp [hmLookup] at hl
            | cons q t' ih' =>
              obtain ⟨k', w''⟩ := q
              simp only [hmLookup] at hl
              by_cases hk' : k' = m'
              · subst hk'
                simp
              · rw [if_neg hk'] at hl
                simp only [List.map_cons, List.mem_cons]
                exact Or.inr (ih' hl)
          exact hn.1 this
      · rw [if_neg h]
        simp only [hmLookup]
        rw [if_neg (fun he => h he.symm)]
    · rw [if_neg hk]
      simp only [hmLookup]
      by_cases h : k = m'
      · subst h
        rw [if_pos rfl, if_neg ?_, if_pos rfl]
        intro he
        exact hk he
      · rw [if_neg h, ih hn.2, if_neg h]

/-- A successful lookup exhibits a stored pair with the looked-up key. -/
theorem hmLookup_mem {m : String} {v : F64} : ∀ {l : List (String × F64)},
    hmLookup m l = some v → (m, v) ∈ l := by
  intro l
  induction l with
  | nil => intro h; simp [hmLookup] at h
  | cons p t ih =>
    obtain ⟨k, w⟩ := p
    intro h
    simp only [hmLookup] at h
    by_cases hk : k = m
    · subst hk
      rw [if_pos rfl] at h
      cases h
      exact List.mem_cons_self _ _
    · rw [if_neg hk] at h
      exact List.mem_cons_of_mem _ (ih h)

/-- A key is in the key list exactly when its lookup succeeds. -/
theorem mem_keys_iff_lookup (m : String) : ∀ l : List (String × F64),
    (m ∈ l.map Prod.fst ↔ ∃ v, hmLookup m l = some v) := by
  intro l
  induction l with
  | nil => simp [hmLookup]
  | cons p t ih =>
    obtain ⟨k, w⟩ := p
    simp only [List.map_cons, List.mem_cons, hmLookup]
    by_cases hk : k = m
    · subst hk
      simp
    · rw [if_neg hk]
      simp only [ih]
      constructor
      · rintro (h | h)
        · exact absurd h.symm hk
        · exact h
      · intro h
        exact Or.inr h

/-! ### Well-formedness: consequences and preservation -/

theorem SortedSetM.Wf.allFinite_ordered {s : SortedSetM} (h : s.Wf) : allFinite s.ordered := by
  obtain ⟨hp, hnd, hfin, hcorr⟩ := h
  intro z hz
  have hz' : ({ score := z.score, member := z.member } : ScoredMember) ∈ s.ordered := hz
  have := (hcorr z.score z.member).mpr hz'
  exact hfin (z.member, z.score) (hmLookup_mem this)

theorem SortedSetM.Wf.ordered_nodup_members {s : SortedSetM} (h : s.Wf) :
    (s.ordered.map ScoredMember.member).Nodup := by
  obtain ⟨hp, hnd, hfin, hcorr⟩ := h
  have hnodup : s.ordered.Nodup := by
    refine List.Pairwise.imp ?_ hp
    intro a b hab he
    rw [he, smCmp_self] at hab
    exact absurd hab (by simp)
  refine hnodup.map_on ?_
  intro a ha b hb hmem
  have hA := (hcorr a.score a.member).mpr ha
  have hB := (hcorr b.score b.member).mpr hb
  rw [hmem] at hA
  rw [hA] at hB
  have hsc : a.score = b.score := Option.some.inj hB
  obtain ⟨sa, ma⟩ := a
  obtain ⟨sb, mb⟩ := b
  simp only at hsc hmem
  rw [hsc, hmem]

theorem SortedSetM.Wf.lengths {s : SortedSetM} (h : s.Wf) :
    s.by_member.length = s.ordered.length := by
  have hkeys : (s.by_member.map Prod.fst).Nodup := h.2.1
  have hmems : (s.ordered.map ScoredMember.member).Nodup := h.ordered_nodup_members
  have hsame : ∀ m, m ∈ s.by_member.map Prod.fst ↔
      m ∈ s.ordered.map ScoredMember.member := by
    intro m
    rw [mem_keys_iff_lookup]
    constructor
    · rintro ⟨v, hv⟩
      have := (h.2.2.2 v m).mp hv
      exact List.mem_map.mpr ⟨_, this, rfl⟩
    · intro hm
      obtain ⟨z, hz, hzm⟩ := List.mem_map.mp hm
      refine ⟨z.score, (h.2.2.2 z.score m).mpr ?_⟩
      have : ({ score := z.score, member := z.member } : ScoredMember) = z := rfl
      rw [← hzm, this]
      exact hz
  have hfin : (s.by_member.map Prod.fst).toFinset =
      (s.ordered.map ScoredMember.member).toFinset := by
    apply Finset.ext
    intro m
    simp only [List.mem_toFinset]
    exact hsame m
  have h1 := List.toFinset_card_of_nodup hkeys
  have h2 := List.toFinset_card_of_nodup hmems
  rw [hfin] at h1
  rw [h2] at h1
  simpa using h1.symm

/-- `SortedSet::new` is well-formed. -/
theorem Wf_new : SortedSetM.new.Wf := by
  refine ⟨?_, ?_, ?_, ?_⟩ <;> simp [SortedSetM.new, hmLookup]

/-- `SortedSet::zadd` preserves well-formedness. -/
theorem zadd_Wf (s : SortedSetM) (score : F64) (member : String) (h : s.Wf) :
    (s.zadd score member).2.Wf := by
  obtain ⟨hp, hnd, hfv, hcorr⟩ := h
  have hford : allFinite s.ordered := SortedSetM.Wf.allFinite_ordered ⟨hp, hnd, hfv, hcorr⟩
  unfold SortedSetM.zadd
  by_cases hfin : score.isFinite = true
  case neg =>
    rw [if_pos (by simp [hfin])]
    exact ⟨hp, hnd, hfv, hcorr⟩
  rw [if_neg (by simp [hfin])]
  cases hlk : hmLookup member s.by_member with
  | some old =>
    have hold_fin : old.isFinite = true := hfv (member, old) (hmLookup_mem hlk)
    by_cases hbeq : old.beq score = true
    · simp only [hbeq, if_true]
      exact ⟨hp, hnd, hfv, hcorr⟩
    · simp only [hbeq, if_false, Bool.false_eq_true]
      have hne : old ≠ score := by
        obtain ⟨vo, rfl⟩ := F64.isFinite_iff.mp hold_fin
        obtain ⟨vn, rfl⟩ := F64.isFinite_iff.mp hfin
        intro he
        cases he
        exact hbeq (by simp [F64.beq])
      have hxold_fin : ({ score := old, member := member } : ScoredMember).score.isFinite
          = true := hold_fin
      have hrem_pairwise :
          List.Pairwise (fun a b => a.cmp b = Ordering.lt)
            (btRemove { score := old, member := member } s.ordered) :=
        hp.sublist (btRemove_sublist _ _)
      have hrem_fin : allFinite (btRemove { score := old, member := member } s.ordered) :=
        fun w hw => hford w ((btRemove_sublist _ _).mem hw)
      have hnotin : ∀ w ∈ btRemove { score := old, member := member } s.ordered,
          ({ score := score, member := member } : ScoredMember).cmp w ≠ Ordering.eq := by
        intro w hw hcw
        have hwo : w ∈ s.ordered := (btRemove_sublist _ _).mem hw
        have : ({ score := score, member := member } : ScoredMember) = w :=
          (smCmp_eq_iff hfin (hford w hwo)).mp hcw
        rw [← this] at hwo
        have := (hcorr score member).mpr hwo
        rw [hlk] at this
        cases this
        exact hne rfl
      refine ⟨?_, ?_, ?_, ?_⟩
      · exact btInsert_pairwise hrem_pairwise hrem_fin hfin
      · exact keys_nodup_hmInsert member score s.by_member hnd
      · exact values_finite_hmInsert member score hfin s.by_member hfv
      · intro sc' m'
        rw [hmLookup_hmInsert]
        rw [mem_btInsert hnotin]
        by_cases hm : m' = member
        · subst hm
          rw [if_pos rfl]
          constructor
          · intro he
            cases he
            exact Or.inl rfl
          · rintro (he | hmem)
            · cases he
              rfl
            · exfalso
              rw [mem_btRemove hxold_fin hp hford] at hmem
              have := (hcorr sc' m').mpr hmem.1
              rw [hlk] at this
              cases this
              exact hmem.2 rfl
        · rw [if_neg hm]
          rw [mem_btRemove hxold_fin hp hford]
          constructor
          · intro hv
            refine Or.inr ⟨(hcorr sc' m').mp hv, ?_⟩
            intro he
            cases he
            exact hm rfl
          · rintro (he | hmem)
            · cases he
              exact absurd rfl hm
            · exact (hcorr sc' m').mpr hmem.1
  | none =>
    have hnotin : ∀ w ∈ s.ordered,
        ({ score := score, member := member } : ScoredMember).cmp w ≠ Ordering.eq := by
      intro w hw hcw
      have : ({ score := score, member := member } : ScoredMember) = w :=
        (smCmp_eq_iff hfin (hford w hw)).mp hcw
      rw [← this] at hw
      have := (hcorr score member).mpr hw
      rw [hlk] at this
      cases this
    refine ⟨?_, ?_, ?_, ?_⟩
    · exact btInsert_pairwise hp hford hfin
    · exact keys_nodup_hmInsert member score s.by_member hnd
    · exact values_finite_hmInsert member score hfin s.by_member hfv
    · intro sc' m'
      rw [hmLookup_hmInsert]
      rw [mem_btInsert hnotin]
      by_cases hm : m' = member
      · subst hm
        rw [if_pos rfl]
        constructor
        · intro he
          cases he
          exact Or.inl rfl
        · rintro (he | hmem)
          · cases he
            rfl
          · exfalso
            have := (hcorr sc' m').mpr hmem
            rw [hlk] at this
            cases this
      · rw [if_neg hm]
        constructor
        · intro hv
          exact Or.inr ((hcorr sc' m').mp hv)
        · rintro (he | hmem)
          · cases he
            exact absurd rfl hm
          · exact (hcorr sc' m').mpr hmem

/-- The modelled `SortedSet::zrem` preserves well-formedness. -/
theorem zrem_Wf (s : SortedSetM) (member : String) (h : s.Wf) :
    (s.zrem member).2.Wf := by
  obtain ⟨hp, hnd, hfv, hcorr⟩ := h
  have hford : allFinite s.ordered := SortedSetM.Wf.allFinite_ordered ⟨hp, hnd, hfv, hcorr⟩
  unfold SortedSetM.zrem
  cases hlk : hmLookup member s.by_member with
  | none => exact ⟨hp, hnd, hfv, hcorr⟩
  | some sc =>
    have hsc_fin : sc.isFinite = true := hfv (member, sc) (hmLookup_mem hlk)
    have hxold_fin : ({ score := sc, member := member } : ScoredMember).score.isFinite
        = true := hsc_fin
    refine ⟨?_, ?_, ?_, ?_⟩
    · exact hp.sublist (btRemove_sublist _ _)
    · exact hnd.sublist (keys_hmRemove_sublist member s.by_member)
    · exact fun p hp' => hfv p (hmRemove_subset member s.by_member p hp')
    · intro sc' m'
      rw [hmLookup_hmRemove m' member s.by_member hnd]
      rw [mem_btRemove hxold_fin hp hford]
      by_cases hm : m' = member
      · subst hm
        rw [if_pos rfl]
        constructor
        · intro he
          cases he
        · rintro ⟨hmem, hne⟩
          have := (hcorr sc' m').mpr hmem
          rw [hlk] at this
          cases this
          exact absurd rfl hne
      · rw [if_neg hm]
        constructor
        · intro hv
          refine ⟨(hcorr sc' m').mp hv, ?_⟩
          intro he
          cases he
          exact hm rfl
        · rintro ⟨hmem, _⟩
          exact (hcorr sc' m').mpr hmem

/-- C8: every mutating sorted-set operation (`zadd` from the source and
the spec-modelled `zrem`; `zrank`, `zrange` and `zcard` do not mutate)
preserves well-formedness, the empty set is well-formed, and
well-formedness yields exactly the claimed dual-index invariant: a member
maps to a score precisely when the scored pair is in the ordered index
(so the two structures agree on the score), and the two indexes have equal
cardinality. -/
theorem C8_dual_index_invariant :
    SortedSetM.new.Wf
    ∧ (∀ (s : SortedSetM) (score : F64) (member : String),
        s.Wf → ((s.zadd score member).2).Wf)
    ∧ (∀ (s : SortedSetM) (member : String), s.Wf → ((s.zrem member).2).Wf)
    ∧ (∀ s : SortedSetM, s.Wf → DualIndexInv s) :=
  ⟨Wf_new, zadd_Wf, zrem_Wf, fun s h => ⟨h.2.2.2, SortedSetM.Wf.lengths h⟩⟩

/-- C8 witness: inserting member `a` with score 1 into the empty set gives
a well-formed set satisfying the dual-index invariant. -/
theorem C8_dual_index_invariant_witness :
    ((SortedSetM.new.zadd (F64.num 1) "a").2).Wf
    ∧ DualIndexInv ((SortedSetM.new.zadd (F64.num 1) "a").2) :=
  have h1 : ((SortedSetM.new.zadd (F64.num 1) "a").2).Wf :=
    C8_dual_index_invariant.2.1 SortedSetM.new (F64.num 1) "a" C8_dual_index_invariant.1
  ⟨h1, C8_dual_index_invariant.2.2.2 _ h1⟩

/-! ## Claim C6: null bulk strings and null arrays -/

/-! ## Claim C6: null bulk strings and null arrays -/

/-- C6 counterexample: the decoder maps `$-1\r\n` to `BulkString(vec![])`,
the very same value it produces for the empty bulk string `$0\r\n\r\n`
(so the null bulk string is not distinct), and it rejects `*-1\r\n` as a
parse error instead of producing a null array. -/
theorem C6_null_counterexample :
    parseValueTop [36, 45, 49, 13, 10] = (Except.ok (Value.bulkString []), [])
    ∧ parseValueTop [36, 48, 13, 10, 13, 10] = (Except.ok (Value.bulkString []), [])
    ∧ parseValueTop [42, 45, 49, 13, 10] =
      (Except.error ("Negative array count not supported"), []) := by
  exact ⟨rfl, rfl, rfl⟩

/-- C6 amended: the decoder maps `$-1\r\n` to the empty bulk string,
identical to the decoding of `$0\r\n\r\n`; it rejects every decoded
negative bulk length other than -1 and every decoded negative array count,
including -1, as parse errors. -/
theorem C6_negative_length_rejection :
    (∀ len : Int, len < 0 → len ≠ -1 → ∀ buf,
      parseBulkStringWithLen len buf =
        (Except.error ("Invalid bulk string length or insufficient data"), buf))
    ∧ (∀ fuel : Nat, ∀ count : Int, count < 0 → ∀ buf,
      parseArrayWithCount (fuel + 1) count buf =
        (Except.error ("Negative array count not supported"), buf))
    ∧ parseValueTop [36, 45, 49, 13, 10] = (Except.ok (Value.bulkString []), [])
    ∧ parseValueTop [36, 48, 13, 10, 13, 10] = (Except.ok (Value.bulkString []), []) := by
  refine ⟨?_, ?_, rfl, rfl⟩
  · intro len h1 h2 buf
    simp only [parseBulkStringWithLen, if_neg h2, if_pos (Or.inl h1)]
  · intro fuel count h buf
    simp only [parseArrayWithCount, if_pos h]

/-- C6 witness: the negative-length rejections applied at length -2 and
count -3 on concrete buffers. -/
theorem C6_negative_length_rejection_witness :
    parseBulkStringWithLen (-2) [65] =
      (Except.error ("Invalid bulk string length or insufficient data"), [65])
    ∧ parseArrayWithCount 1 (-3) [66] =
      (Except.error ("Negative array count not supported"), [66]) :=
  ⟨C6_negative_length_rejection.1 (-2) (by decide) (by decide) [65],
   C6_negative_length_rejection.2.1 0 (-3) (by decide) [66]⟩

end RedisKV
